import Mathlib

/-!
Verification of the canonicalization / grouping / metadata-caching pipeline of a
MongoDB slow-query analyzer (`mongo_optimiser/db_utils.py`, `mongo_optimiser/main.py`).

The Python functions are shallowly embedded as executable Lean definitions:

* Python/BSON values become the inductive type `PyVal` (dicts are association
  lists in insertion order, as Python 3.7+ dicts preserve insertion order).
* `dict.get` returning `None` and an absent key are both modelled as `Option.none`
  (the source only ever reads these fields through `.get`, which conflates them).
* Exceptions (`OperationFailure`, raised by the database driver and caught at
  component boundaries) are modelled with `Except Unit`.
* The database engine is modelled as a structure of effect functions (`DB`,
  `Collection`); the pure pipeline logic is translated line by line.
* `hashlib.md5(...).hexdigest()` is modelled as an arbitrary digest function
  `String → String` applied to the serialized JSON: every claim in scope speaks
  only about equality of signatures, which is preserved by composing any
  function on the serialized form.
* Python `float` values are carried as `Rat`; the pipeline never does float
  arithmetic on filter literals (they are replaced by type placeholders), and
  the group-average float division is modelled as exact rational division.
-/

namespace MQO

/-- A Python value as it occurs in profiler documents: the JSON/BSON-like
fragment of Python's data model. `dict` keeps insertion order, like Python
dicts. Python `None` is `null`. Tuples do not occur in decoded BSON and are
not modelled. -/
inductive PyVal where
  | str (s : String)
  | int (n : Int)
  | float (q : Rat)
  | bool (b : Bool)
  | null
  | list (xs : List PyVal)
  | dict (kvs : List (String × PyVal))

/-- Python `type(value).__name__` for the modelled values. -/
def pyTypeName : PyVal → String
  | .str _ => "str"
  | .int _ => "int"
  | .float _ => "float"
  | .bool _ => "bool"
  | .null => "NoneType"
  | .list _ => "list"
  | .dict _ => "dict"

/-- Python truthiness (`if value:`) for the modelled values. -/
def pyTruthy : PyVal → Bool
  | .str s => !s.isEmpty
  | .int n => n != 0
  | .float q => q != 0
  | .bool b => b
  | .null => false
  | .list xs => !xs.isEmpty
  | .dict kvs => !kvs.isEmpty

/-- Python `"key" in d` for a dict value (commands in profiler entries are
always mappings). -/
def dictHasKey (v : PyVal) (key : String) : Bool :=
  match v with
  | .dict kvs => kvs.any (fun p => p.1 == key)
  | _ => false

/-- Python `d.get(key)` on a dict value: first binding wins, `none` when the
key is absent (or the value is not a mapping). -/
def dictGet (v : PyVal) (key : String) : Option PyVal :=
  match v with
  | .dict kvs => List.lookup key kvs
  | _ => none

/-- The comparison-operator keys of `normalize_query_structure`
(`db_utils.py` line 56). -/
def comparison_operator_keys : List String :=
  ["$eq", "$ne", "$gt", "$gte", "$lt", "$lte", "$in", "$nin"]

/-- The text/pattern-operator keys of `normalize_query_structure`
(`db_utils.py` line 67). -/
def text_operator_keys : List String :=
  ["$regex", "$text", "$where"]

/-- The structural-operator keys of `normalize_query_structure`
(`db_utils.py` line 70). -/
def structural_operator_keys : List String :=
  ["$exists", "$type", "$size"]

mutual

/-- `normalize_query_structure` (`db_utils.py` lines 42-84): replace literal
values by type placeholders.  The two source branches `key.startswith('$')`
and the final `else` have identical bodies (recurse into the value); they are
merged into the last alternative of `normalizeDict`. -/
def normalize_query_structure : PyVal → PyVal
  | .dict kvs => .dict (normalizeDict kvs)
  | .list xs => .list (normalizeList xs)
  | v => .str ("<" ++ pyTypeName v ++ ">")

/-- Elementwise normalization of a sequence (`db_utils.py` line 81). -/
def normalizeList : List PyVal → List PyVal
  | [] => []
  | x :: xs => normalize_query_structure x :: normalizeList xs

/-- Per-entry normalization of a mapping (`db_utils.py` lines 55-78). -/
def normalizeDict : List (String × PyVal) → List (String × PyVal)
  | [] => []
  | (key, value) :: rest =>
    (key,
      if key ∈ comparison_operator_keys then
        match value with
        | .list [] => .str "<empty_array>"
        | .list (v0 :: _) => .str ("<" ++ pyTypeName v0 ++ "_array>")
        | _ => .str ("<" ++ pyTypeName value ++ ">")
      else if key ∈ text_operator_keys then
        .str ("<" ++ key.drop 1 ++ "_pattern>")
      else if key ∈ structural_operator_keys then
        value
      else
        normalize_query_structure value) :: normalizeDict rest

end

/-- Ordering of dict entries by key, as used by `json.dumps(..., sort_keys=True)`
(Python sorts keys by code-point comparison, which is the lexicographic order
on the key's character list). -/
def keyLe (a b : String × PyVal) : Prop := a.1.data ≤ b.1.data

instance : DecidableRel keyLe := fun a b => inferInstanceAs (Decidable (a.1.data ≤ b.1.data))

instance : IsTotal (String × PyVal) keyLe := ⟨fun a b => le_total a.1.data b.1.data⟩

instance : IsTrans (String × PyVal) keyLe := ⟨fun _ _ _ h1 h2 => le_trans h1 h2⟩

/-- Sort the entries of a mapping by key (the `sort_keys=True` step of
`json.dumps`). -/
def sortByKey (kvs : List (String × PyVal)) : List (String × PyVal) :=
  List.insertionSort keyLe kvs

mutual

/-- Recursively sort every mapping of a value by key: the key ordering that
`json.dumps(obj, sort_keys=True)` applies at serialization time
(`db_utils.py` line 123), split out as a tree transformation. -/
def canonicalize : PyVal → PyVal
  | .dict kvs => .dict (sortByKey (canonDict kvs))
  | .list xs => .list (canonList xs)
  | v => v

def canonList : List PyVal → List PyVal
  | [] => []
  | x :: xs => canonicalize x :: canonList xs

def canonDict : List (String × PyVal) → List (String × PyVal)
  | [] => []
  | (k, v) :: rest => (k, canonicalize v) :: canonDict rest

end

/-- Escape one character for a JSON string literal. -/
def jsonEscapeChar (c : Char) : List Char :=
  if c = '\\' then ['\\', '\\'] else if c = '"' then ['\\', '"'] else [c]

/-- JSON string escaping of the two JSON-meaningful characters (profiler keys
and placeholder tokens contain neither; full `json.dumps` escaping of control
characters is not needed for the values in scope). -/
def jsonEscape (s : String) : String :=
  ⟨(s.data.map jsonEscapeChar).flatten⟩

mutual

/-- Serialize a value in `json.dumps` style (default separators `", "` and
`": "`; `default=str` never fires because every modelled value is
serializable).  Mapping entries are emitted in the order they occur; composing
with `canonicalize` yields the `sort_keys=True` behaviour used by
`get_query_signature`. -/
def pyToJson : PyVal → String
  | .str s => "\"" ++ jsonEscape s ++ "\""
  | .int n => toString n
  | .float q => toString q
  | .bool b => if b then "true" else "false"
  | .null => "null"
  | .list xs => "[" ++ String.intercalate ", " (jsonList xs) ++ "]"
  | .dict kvs => "\x7b" ++ String.intercalate ", " (jsonDict kvs) ++ "\x7d"

def jsonList : List PyVal → List String
  | [] => []
  | x :: xs => pyToJson x :: jsonList xs

def jsonDict : List (String × PyVal) → List String
  | [] => []
  | (k, v) :: rest => ("\"" ++ jsonEscape k ++ "\": " ++ pyToJson v) :: jsonDict rest

end

/-- `json.dumps(obj, sort_keys=True, default=str)` as used at
`db_utils.py` line 123. -/
def jsonDumpsSorted (v : PyVal) : String :=
  pyToJson (canonicalize v)

/-- Aggregate statistics attached to a representative query
(`db_utils.py` lines 166-172, the `group_info` entry). -/
structure GroupInfo where
  total_similar_queries : Nat
  min_duration_ms : Int
  max_duration_ms : Int
  avg_duration_ms : Rat
  query_signatures : List String

/-- One extracted query record: the `query_info` dict built by
`get_slow_queries` (`db_utils.py` lines 276-306).  Fields that the extractor
fills from `dict.get` calls are `Option`-valued, conflating an absent key with
a `None` value (the source only reads them back via `.get`).  `millis` is
always present on profiler entries, so `duration_ms` is a plain integer;
timestamps are modelled as milliseconds since the epoch. -/
structure QueryRecord where
  ns : Option String
  op_type : Option String
  type : Option String
  duration_ms : Int
  ts : Int
  planSummary : Option String
  nscannedObjects : Option Int
  nscanned : Option Int
  command_details : Option PyVal
  original_query_filter : Option PyVal
  original_query_sort : Option PyVal
  original_query_orderby : Option PyVal
  original_query_projection : Option PyVal
  original_query_pipeline : Option PyVal
  original_query_update : Option PyVal
  group_info : Option GroupInfo

/-- Python truthiness of `query_info.get(field)`: `False` when the key is
absent or holds `None`, otherwise the truthiness of the value. -/
def pyTruthyOpt : Option PyVal → Bool
  | none => false
  | some v => pyTruthy v

/-- Python `a or b` over two `.get` results, used for
`query_info.get('original_query_sort') or query_info.get('original_query_orderby')`
(`db_utils.py` line 110). -/
def pyOrOpt (a b : Option PyVal) : PyVal :=
  if pyTruthyOpt a then a.getD .null else b.getD .null

/-- An optional string field embedded back into a Python value. -/
def optStrVal : Option String → PyVal
  | none => .null
  | some s => .str s

/-- The `signature_components` dict built by `get_query_signature`
(`db_utils.py` lines 99-121), in Python insertion order. -/
def signature_components (q : QueryRecord) : List (String × PyVal) :=
  [("ns", optStrVal q.ns), ("op_type", optStrVal q.op_type), ("type", optStrVal q.type)]
  ++ (if pyTruthyOpt q.original_query_filter then
        [("filter", normalize_query_structure (q.original_query_filter.getD .null))]
      else [])
  ++ (if pyTruthyOpt q.original_query_sort || pyTruthyOpt q.original_query_orderby then
        [("sort", normalize_query_structure
            (pyOrOpt q.original_query_sort q.original_query_orderby))]
      else [])
  ++ (if pyTruthyOpt q.original_query_projection then
        [("projection", normalize_query_structure (q.original_query_projection.getD .null))]
      else [])
  ++ (if pyTruthyOpt q.original_query_pipeline then
        [("pipeline", normalize_query_structure (q.original_query_pipeline.getD .null))]
      else [])
  ++ (if pyTruthyOpt q.original_query_update then
        [("update", normalize_query_structure (q.original_query_update.getD .null))]
      else [])

/-- `get_query_signature` (`db_utils.py` lines 87-124).  The `hashlib.md5`
hexdigest is modelled by the `digest` parameter: the claims in scope only
concern equality of signatures, which any function of the serialized JSON
preserves. -/
def get_query_signature (digest : String → String) (query_info : QueryRecord) : String :=
  digest (jsonDumpsSorted (.dict (signature_components query_info)))

/-- `group_similar_queries` loop body (`db_utils.py` lines 139-143): a Python
dict keyed by signature, as an insertion-ordered association list.  A missing
key is appended at the end (`grouped_queries[signature] = []`), an existing
key has the record appended to its list. -/
def addToGroup (grouped : List (String × List QueryRecord)) (signature : String)
    (q : QueryRecord) : List (String × List QueryRecord) :=
  if grouped.any (fun p => p.1 == signature) then
    grouped.map (fun p => if p.1 == signature then (p.1, p.2 ++ [q]) else p)
  else
    grouped ++ [(signature, [q])]

/-- `group_similar_queries` (`db_utils.py` lines 127-145). -/
def group_similar_queries (digest : String → String) (queries : List QueryRecord) :
    List (String × List QueryRecord) :=
  queries.foldl (fun m q => addToGroup m (get_query_signature digest q) q) []

/-- Total number of records held by a grouping result. -/
def sumSizes (m : List (String × List QueryRecord)) : Nat :=
  (m.map (fun p => p.2.length)).sum

/-- Python `max(iterable, key=f)`: the first element is the initial current
maximum and a later element replaces it only when its key is strictly
greater, so the first occurrence of the maximal key wins. -/
def pyMaxBy (f : QueryRecord → Int) : QueryRecord → List QueryRecord → QueryRecord
  | cur, [] => cur
  | cur, y :: ys => pyMaxBy f (if f y > f cur then y else cur) ys

/-- Python `min` over a non-empty integer sequence, as a fold from its head. -/
def pyMinInt : Int → List Int → Int
  | cur, [] => cur
  | cur, y :: ys => pyMinInt (if y < cur then y else cur) ys

/-- Python `max` over a non-empty integer sequence, as a fold from its head. -/
def pyMaxInt : Int → List Int → Int
  | cur, [] => cur
  | cur, y :: ys => pyMaxInt (if y > cur then y else cur) ys

/-- `select_representative_query` (`db_utils.py` lines 148-174).  The
`ValueError` raised on an empty group is modelled as `none`.  `sum(...)/len(...)`
is Python 3 float division, modelled as exact rational division.  The source
mutates the chosen dict in place; functionally, the returned record is the
chosen record with its `group_info` entry set. -/
def select_representative_query (digest : String → String)
    (similar_queries : List QueryRecord) : Option QueryRecord :=
  match similar_queries with
  | [] => none
  | q0 :: rest =>
    let representative := pyMaxBy (fun q => q.duration_ms) q0 rest
    some { representative with
      group_info := some {
        total_similar_queries := (q0 :: rest).length,
        min_duration_ms := pyMinInt q0.duration_ms (rest.map (fun q => q.duration_ms)),
        max_duration_ms := pyMaxInt q0.duration_ms (rest.map (fun q => q.duration_ms)),
        avg_duration_ms :=
          ((((q0 :: rest).map (fun q => q.duration_ms)).sum : Int) : Rat)
            / (((q0 :: rest).length : Nat) : Rat),
        query_signatures := ((q0 :: rest).take 3).map (get_query_signature digest) } }

/-- One raw `system.profile` entry, restricted to the fields the extractor
projects (`db_utils.py` lines 255-268).  `op` and `millis` are always present
on profiler entries; timestamps are milliseconds since the epoch. -/
structure RawEntry where
  ns : Option String
  op : String
  millis : Int
  ts : Int
  planSummary : Option String
  nscannedObjects : Option Int
  nscanned : Option Int
  command : Option PyVal
  query : Option PyVal
  orderby : Option PyVal

/-- `all_operations` (`db_utils.py` line 238). -/
def all_operations : List String :=
  ["query", "command", "update", "delete", "insert", "getmore"]

/-- The per-entry record construction of the extractor loop
(`db_utils.py` lines 276-306). -/
def extract_query_info (q : RawEntry) : QueryRecord :=
  let base : QueryRecord := {
    ns := q.ns, duration_ms := q.millis, planSummary := q.planSummary, ts := q.ts,
    op_type := some q.op, nscannedObjects := q.nscannedObjects, nscanned := q.nscanned,
    type := none, command_details := none, original_query_filter := none,
    original_query_sort := none, original_query_orderby := none,
    original_query_projection := none, original_query_pipeline := none,
    original_query_update := none, group_info := none }
  match q.command with
  | some cmd =>
    if dictHasKey cmd "find" then
      { base with
        type := some "command", command_details := some cmd,
        original_query_filter := dictGet cmd "filter",
        original_query_sort := dictGet cmd "sort",
        original_query_projection := dictGet cmd "projection" }
    else if dictHasKey cmd "aggregate" then
      { base with
        type := some "command", command_details := some cmd,
        original_query_pipeline := dictGet cmd "pipeline" }
    else if dictHasKey cmd "update" then
      { base with
        type := some "command", command_details := some cmd,
        original_query_filter := dictGet cmd "q",
        original_query_update := dictGet cmd "u" }
    else if dictHasKey cmd "delete" then
      { base with
        type := some "command", command_details := some cmd,
        original_query_filter := dictGet cmd "q" }
    else
      { base with type := some "command", command_details := some cmd }
  | none =>
    match q.query with
    | some qq =>
      { base with
        type := some "legacy_query",
        original_query_filter := some qq,
        original_query_orderby := q.orderby }
    | none => base

/-- Ordering used by `.sort("millis", -1)`: duration descending. -/
def millisGe (a b : RawEntry) : Prop := b.millis ≤ a.millis

instance : DecidableRel millisGe := fun a b => inferInstanceAs (Decidable (b.millis ≤ a.millis))

instance : IsTotal RawEntry millisGe := ⟨fun a b => le_total b.millis a.millis⟩

instance : IsTrans RawEntry millisGe := ⟨fun _ _ _ h1 h2 => le_trans h2 h1⟩

/-- `get_slow_queries` (`db_utils.py` lines 215-307).  The MongoDB server-side
work is modelled directly: the profile collection is the list `entries`, the
built `query_filter` document is applied as the corresponding predicate, and
`.sort("millis", -1)` sorts by duration descending (modelled as a stable
sort).  `profile_exists` models the `system.profile`-missing early return
(lines 222-227) and `profile_query_ok` the `OperationFailure` handler around
the profile query (lines 270-272); both failure paths return `[]`.  The
operation filter (lines 238-242) only restricts `op` when the included list
`all_operations minus exclude_operations` is non-empty, and the time filter
(lines 245-248) only applies when `time_window_minutes > 0`, with
`cutoff_time = now - time_window_minutes` (in milliseconds). -/
def get_slow_queries (profile_exists : Bool) (profile_query_ok : Bool) (now_ms : Int)
    (entries : List RawEntry) (min_duration_ms : Int) (exclude_operations : List String)
    (time_window_minutes : Int) : List QueryRecord :=
  if !profile_exists then []
  else if !profile_query_ok then []
  else
    let included_operations := all_operations.filter (fun op => op ∉ exclude_operations)
    let cutoff_time := now_ms - time_window_minutes * 60000
    let passes : RawEntry → Bool := fun e =>
      decide (min_duration_ms ≤ e.millis)
      && (included_operations.isEmpty || included_operations.contains e.op)
      && (decide (time_window_minutes ≤ 0) || decide (cutoff_time ≤ e.ts))
    (List.insertionSort millisGe (entries.filter passes)).map extract_query_info

/-- A value stored in the metadata cache: schema mappings under `.schema` keys,
index descriptor lists under `.indexes` keys. -/
inductive CacheData where
  | schemaData (s : List (String × String))
  | indexData (i : List PyVal)

/-- One `_metadata_cache` entry (`db_utils.py` lines 373-376 and 410-413). -/
structure CacheEntry where
  data : CacheData
  timestamp : Int

/-- The `_metadata_cache` global dict, threaded explicitly as state:
an insertion-ordered association list from cache key to entry. -/
abbrev Cache := List (String × CacheEntry)

/-- Python dict assignment `_metadata_cache[key] = entry`: replace in place
when the key exists, append otherwise. -/
def cacheWrite (c : Cache) (k : String) (e : CacheEntry) : Cache :=
  if c.any (fun p => p.1 == k) then
    c.map (fun p => if p.1 == k then (p.1, e) else p)
  else
    c ++ [(k, e)]

/-- The engine-side behaviour of one collection, as consumed by the metadata
getters and the explain builder: `$sample` aggregation (argument is the
computed sample size), estimated document count, `index_information()`, and
`find(...).sort(...).project(...).explain()` (arguments: filter, optional
sort, optional projection).  `Except.error` models a raised
`OperationFailure`. -/
structure Collection where
  sample : Nat → Except Unit (List (List (String × PyVal)))
  estimated_document_count : Nat
  index_information : Except Unit (List PyVal)
  find_explain : PyVal → Option PyVal → Option PyVal → Except Unit PyVal

/-- The database handle: its name, `get_collection` (pymongo cannot actually
return `None` here, but the source guards for it, so the model allows it),
and the three `db.command(...)` explain variants used by `get_explain_plan`
with exactly the arguments the source passes. -/
structure DB where
  name : String
  get_collection : String → Option Collection
  command_explain_aggregate : String → PyVal → Except Unit PyVal
  command_explain_update : String → PyVal → PyVal → Except Unit PyVal
  command_explain_delete : String → PyVal → Except Unit PyVal

/-- Python `isinstance(value, dict)`. -/
def isinstance_dict : PyVal → Bool
  | .dict _ => true
  | _ => false

/-- Python `isinstance(value, list)`. -/
def isinstance_list : PyVal → Bool
  | .list _ => true
  | _ => false

/-- Python `isinstance(value, str)`. -/
def isinstance_str : PyVal → Bool
  | .str _ => true
  | _ => false

/-- Python `isinstance(value, int)`.  In Python, `bool` is a subclass of
`int`, so boolean values satisfy this check. -/
def isinstance_int : PyVal → Bool
  | .int _ => true
  | .bool _ => true
  | _ => false

/-- Python `isinstance(value, float)` (booleans and ints are not floats). -/
def isinstance_float : PyVal → Bool
  | .float _ => true
  | _ => false

/-- Python `isinstance(value, bool)`. -/
def isinstance_bool : PyVal → Bool
  | .bool _ => true
  | _ => false

/-- Python `value is None`. -/
def is_none : PyVal → Bool
  | .null => true
  | _ => false

/-- The nested `get_type` helper of `get_collection_schema`
(`db_utils.py` lines 346-361), with the source's exact `isinstance` check
order.  Because `isinstance(value, int)` is true for booleans in Python, a
boolean value already takes the `"int"` branch and the `"boolean"` branch is
unreachable. -/
def get_type (value : PyVal) : String :=
  if isinstance_dict value then "object"
  else if isinstance_list value then "array"
  else if isinstance_str value then "string"
  else if isinstance_int value then "int"
  else if isinstance_float value then "float"
  else if isinstance_bool value then "boolean"
  else if is_none value then "null"
  else pyTypeName value

/-- One step of the schema fold (`db_utils.py` lines 364-370): record a
field's type tag, folding a conflicting tag to `"mixed"`. -/
def schemaStep (schema : List (String × String)) (k : String) (v : PyVal) :
    List (String × String) :=
  match List.lookup k schema with
  | none => schema ++ [(k, get_type v)]
  | some cur =>
    if cur != get_type v && cur != "mixed" then
      schema.map (fun p => if p.1 == k then (p.1, "mixed") else p)
    else
      schema

/-- The schema inference fold over all sampled documents
(`db_utils.py` lines 363-370). -/
def foldSchema (docs : List (List (String × PyVal))) : List (String × String) :=
  docs.foldl (fun schema doc => doc.foldl (fun s kv => schemaStep s kv.1 kv.2) schema) []

/-- `min(sample_size, collection.estimated_document_count() or sample_size)`
(`db_utils.py` line 339); Python `or` falls back when the count is `0`. -/
def sampleSizeFor (sample_size : Nat) (count : Nat) : Nat :=
  min sample_size (if count = 0 then sample_size else count)

/-- The `.schema` cache key (`db_utils.py` line 322). -/
def schemaCacheKey (db : DB) (collection_name : String) : String :=
  db.name ++ "." ++ collection_name ++ ".schema"

/-- The `.indexes` cache key (`db_utils.py` line 392). -/
def indexCacheKey (db : DB) (collection_name : String) : String :=
  db.name ++ "." ++ collection_name ++ ".indexes"

/-- `get_collection_schema` (`db_utils.py` lines 310-378), with the global
`_metadata_cache` threaded as explicit state and `time.time()` passed as
`now`.  A cache hit returns the stored data; a `.schema` key always stores
schema data, so the `indexData` alternative of the hit branch is unreachable
for caches produced by this code.  A missing collection or a failed `$sample`
returns the empty schema without writing the cache. -/
def get_collection_schema (db : DB) (collection_name : String) (sample_size : Nat)
    (now : Int) (cache : Cache) : (List (String × String)) × Cache :=
  let cache_key := schemaCacheKey db collection_name
  match List.lookup cache_key cache with
  | some entry =>
    (match entry.data with
     | .schemaData s => s
     | .indexData _ => [], cache)
  | none =>
    match db.get_collection collection_name with
    | none => ([], cache)
    | some collection =>
      match collection.sample (sampleSizeFor sample_size collection.estimated_document_count) with
      | .error _ => ([], cache)
      | .ok sampled_docs =>
        let schema := foldSchema sampled_docs
        (schema, cacheWrite cache cache_key ⟨.schemaData schema, now⟩)

/-- `get_collection_indexes` (`db_utils.py` lines 381-418), with the cache
threaded as explicit state.  A missing collection or a failed
`index_information()` returns the empty list without writing the cache. -/
def get_collection_indexes (db : DB) (collection_name : String) (now : Int)
    (cache : Cache) : (List PyVal) × Cache :=
  let cache_key := indexCacheKey db collection_name
  match List.lookup cache_key cache with
  | some entry =>
    (match entry.data with
     | .indexData i => i
     | .schemaData _ => [], cache)
  | none =>
    match db.get_collection collection_name with
    | none => ([], cache)
    | some collection =>
      match collection.index_information with
      | .error _ => ([], cache)
      | .ok indexes =>
        (indexes, cacheWrite cache cache_key ⟨.indexData indexes, now⟩)

/-- Guard of the find-shaped branch of `get_explain_plan`
(`db_utils.py` lines 428-432). -/
def findShape (q : QueryRecord) : Bool :=
  (q.op_type == some "find" || q.op_type == some "query")
  && (q.original_query_filter.isSome || q.original_query_sort.isSome
      || q.original_query_orderby.isSome)

/-- Guard of the aggregate-shaped branch of `get_explain_plan`
(`db_utils.py` line 442). -/
def aggShape (q : QueryRecord) : Bool :=
  q.op_type == some "command" && dictHasKey (q.command_details.getD (.dict [])) "aggregate"

/-- Guard of the update/delete branch of `get_explain_plan`
(`db_utils.py` line 453). -/
def updateDeleteShape (q : QueryRecord) : Bool :=
  q.op_type == some "update" || q.op_type == some "delete"

/-- `try ... except OperationFailure: return None` around an engine call. -/
def exceptToOption : Except Unit PyVal → Option PyVal
  | .ok v => some v
  | .error _ => none

/-- `get_explain_plan` (`db_utils.py` lines 421-462).  Every branch's engine
call is wrapped by the `OperationFailure` handler (lines 459-461); falling
through every branch returns `None` (line 462). -/
def get_explain_plan (db : DB) (collection_name : String) (query_info : QueryRecord) :
    Option PyVal :=
  match db.get_collection collection_name with
  | none => none
  | some collection =>
    if findShape query_info then
      let filter_doc := query_info.original_query_filter.getD (.dict [])
      let sort_doc := pyOrOpt query_info.original_query_sort query_info.original_query_orderby
      exceptToOption (collection.find_explain filter_doc
        (if pyTruthy sort_doc then some sort_doc else none)
        (if pyTruthyOpt query_info.original_query_projection then
          query_info.original_query_projection else none))
    else if aggShape query_info then
      let pipeline :=
        (dictGet (query_info.command_details.getD (.dict [])) "pipeline").getD (.list [])
      exceptToOption (db.command_explain_aggregate collection_name pipeline)
    else if updateDeleteShape query_info then
      let filter_doc := query_info.original_query_filter.getD (.dict [])
      if query_info.op_type == some "update" then
        let update_doc := query_info.original_query_update.getD
          (.dict [("$set", .dict [("__dummy_field__", .bool true)])])
        exceptToOption (db.command_explain_update collection_name filter_doc update_doc)
      else
        exceptToOption (db.command_explain_delete collection_name filter_doc)
    else none

/-- The per-representative explain step of the driver
(`main.py` line 110): `getmore` operations short-circuit to `None` before
`get_explain_plan` is even called. -/
def main_explain_step (db : DB) (collection_name : String) (sq : QueryRecord) :
    Option PyVal :=
  if sq.op_type == some "getmore" then none
  else get_explain_plan db collection_name sq

mutual

/-- Well-formedness of a value as it arises from a decoded BSON/Python
document: every mapping has pairwise-distinct keys (Python dicts cannot hold
duplicate keys). -/
def pyWF : PyVal → Bool
  | .dict kvs => decide ((kvs.map Prod.fst).Nodup) && pyWFDict kvs
  | .list xs => pyWFList xs
  | _ => true

def pyWFList : List PyVal → Bool
  | [] => true
  | x :: xs => pyWF x && pyWFList xs

def pyWFDict : List (String × PyVal) → Bool
  | [] => true
  | p :: rest => pyWF p.2 && pyWFDict rest

end

mutual

/-- Key-order equivalence: two values are related when they are equal up to
reordering the entries of (arbitrarily nested) mappings.  This is exactly
"the same mapping content under a different insertion order". -/
inductive KOE : PyVal → PyVal → Prop
  | str (s : String) : KOE (.str s) (.str s)
  | int (n : Int) : KOE (.int n) (.int n)
  | float (q : Rat) : KOE (.float q) (.float q)
  | bool (b : Bool) : KOE (.bool b) (.bool b)
  | null : KOE .null .null
  | list {xs ys : List PyVal} : KOEList xs ys → KOE (.list xs) (.list ys)
  | dict {kvs mid kvs2 : List (String × PyVal)} :
      KOEDict kvs mid → mid.Perm kvs2 → KOE (.dict kvs) (.dict kvs2)

/-- Pointwise key-order equivalence of sequences. -/
inductive KOEList : List PyVal → List PyVal → Prop
  | nil : KOEList [] []
  | cons {x y : PyVal} {xs ys : List PyVal} :
      KOE x y → KOEList xs ys → KOEList (x :: xs) (y :: ys)

/-- Pointwise key-order equivalence of mapping entry lists: same keys in the
same order, values equivalent. -/
inductive KOEDict : List (String × PyVal) → List (String × PyVal) → Prop
  | nil : KOEDict [] []
  | cons {k : String} {v w : PyVal} {rest rest2 : List (String × PyVal)} :
      KOE v w → KOEDict rest rest2 →
      KOEDict ((k, v) :: rest) ((k, w) :: rest2)

end

/-- A value of mapping or sequence shape — the shapes an operation detail
(filter / sort / projection / pipeline / update document) takes in the data
model. -/
def docShaped (v : PyVal) : Bool :=
  isinstance_dict v || isinstance_list v

/-- Equivalence of two optional operation-detail fields as they enter the
signature: both absent/None, or both present document-shaped well-formed
values whose *normalized* forms are identical up to mapping insertion
order. -/
def OptDetailEquiv (a b : Option PyVal) : Prop :=
  (a = none ∧ b = none) ∨
  ∃ v w, a = some v ∧ b = some w ∧
    docShaped v = true ∧ docShaped w = true ∧
    pyWF v = true ∧ pyWF w = true ∧
    KOE (normalize_query_structure v) (normalize_query_structure w)

/-- The per-entry normalization contract stated by the specification: keys are
preserved; a comparison-operator key's non-sequence value becomes a type
placeholder; a set-membership operator's sequence value becomes an
array-type placeholder (or the empty-array marker); a pattern key becomes its
fixed pattern marker; a structural-assertion key keeps its value verbatim;
every other key's value is normalized recursively. -/
def c7EntryRel (p q : String × PyVal) : Prop :=
  q.1 = p.1 ∧
  (p.1 ∈ comparison_operator_keys → isinstance_list p.2 = false →
    q.2 = .str ("<" ++ pyTypeName p.2 ++ ">")) ∧
  (p.1 ∈ ["$in", "$nin"] → p.2 = .list [] → q.2 = .str "<empty_array>") ∧
  (p.1 ∈ ["$in", "$nin"] → ∀ v0 vs, p.2 = .list (v0 :: vs) →
    q.2 = .str ("<" ++ pyTypeName v0 ++ "_array>")) ∧
  (p.1 ∈ text_operator_keys → q.2 = .str ("<" ++ p.1.drop 1 ++ "_pattern>")) ∧
  (p.1 ∈ structural_operator_keys → q.2 = p.2) ∧
  (p.1 ∉ comparison_operator_keys → p.1 ∉ text_operator_keys →
    p.1 ∉ structural_operator_keys → q.2 = normalize_query_structure p.2)

/-- The type tags observed for field `k` across a document sample, in
processing order. -/
def observedTags (docs : List (List (String × PyVal))) (k : String) : List String :=
  (docs.flatten.filter (fun kv => kv.1 == k)).map (fun kv => get_type kv.2)

/-- The tag accumulated for one field by the schema fold, as a function of the
tags observed for it. -/
def tagFold : Option String → List String → Option String
  | o, [] => o
  | none, t :: ts => tagFold (some t) ts
  | some cur, t :: ts =>
      tagFold (some (if cur != t && cur != "mixed" then "mixed" else cur)) ts

/-- A query record with every optional field absent, used as the base of the
concrete test records below. -/
def baseRecord : QueryRecord := {
  ns := none, op_type := none, type := none, duration_ms := 0, ts := 0,
  planSummary := none, nscannedObjects := none, nscanned := none,
  command_details := none, original_query_filter := none,
  original_query_sort := none, original_query_orderby := none,
  original_query_projection := none, original_query_pipeline := none,
  original_query_update := none, group_info := none }

/-- Concrete record: a 50 ms `shop.orders` query filtering on `status`. -/
def qA : QueryRecord := {
  baseRecord with
  ns := some "shop.orders", op_type := some "query", type := some "command",
  duration_ms := 50, ts := 1000, planSummary := some "COLLSCAN",
  original_query_filter := some (.dict [("status", .str "delivered"), ("user_id", .int 5)]) }

/-- Concrete record: same structure as `qA` with different literals, a
different timestamp and a smaller duration. -/
def qB : QueryRecord := {
  baseRecord with
  ns := some "shop.orders", op_type := some "query", type := some "command",
  duration_ms := 30, ts := 2000,
  original_query_filter := some (.dict [("status", .str "cancelled"), ("user_id", .int 7)]) }

/-- Concrete record: same structure as `qA` but with the filter's mapping
entries in the opposite insertion order. -/
def qASwapped : QueryRecord := {
  baseRecord with
  ns := some "shop.orders", op_type := some "query", type := some "command",
  duration_ms := 40, ts := 3000,
  original_query_filter := some (.dict [("user_id", .int 99), ("status", .str "x")]) }

/-- Concrete record: a structurally different query (another namespace and a
different filtered field). -/
def qC : QueryRecord := {
  baseRecord with
  ns := some "inventory.items", op_type := some "query", type := some "command",
  duration_ms := 70, ts := 4000,
  original_query_filter := some (.dict [("sku", .str "ab-1")]) }

/-- Concrete record: a duplicate of `qA`'s structure and duration (a duration
tie), later in extraction order. -/
def qATie : QueryRecord := {
  baseRecord with
  ns := some "shop.orders", op_type := some "query", type := some "command",
  duration_ms := 50, ts := 5000,
  original_query_filter := some (.dict [("status", .str "shipped"), ("user_id", .int 9)]) }

/-- Concrete record with operation kind `getmore`. -/
def qGetmore : QueryRecord := {
  baseRecord with
  ns := some "shop.orders", op_type := some "getmore", duration_ms := 120, ts := 1 }

/-- Concrete raw profiler entry whose `op` is outside the six kinds listed in
`all_operations`. -/
def eKill : RawEntry := {
  ns := some "shop.orders", op := "killcursors", millis := 200, ts := 0,
  planSummary := none, nscannedObjects := none, nscanned := none,
  command := none, query := none, orderby := none }

/-- Sample documents returned by the healthy test collection. -/
def docs0 : List (List (String × PyVal)) :=
  [[("flag", .bool true), ("name", .str "a")], [("name", .str "b"), ("price", .float 2)]]

/-- Index descriptors returned by the healthy test collection. -/
def idxs0 : List PyVal :=
  [.dict [("key", .dict [("_id", .int 1)])]]

/-- A collection whose every engine call succeeds. -/
def colOk : Collection := {
  sample := fun _ => .ok docs0,
  estimated_document_count := 5,
  index_information := .ok idxs0,
  find_explain := fun _ _ _ => .ok (.dict [("queryPlanner", .dict [])]) }

/-- A collection whose every engine call raises `OperationFailure`. -/
def colFail : Collection := {
  sample := fun _ => .error (),
  estimated_document_count := 0,
  index_information := .error (),
  find_explain := fun _ _ _ => .error () }

/-- A database handle whose collections are healthy. -/
def dbOk : DB := {
  name := "testdb",
  get_collection := fun _ => some colOk,
  command_explain_aggregate := fun _ _ => .ok (.dict [("stages", .list [])]),
  command_explain_update := fun _ _ _ => .ok (.dict []),
  command_explain_delete := fun _ _ => .ok (.dict []) }

/-- A database handle with the same name as `dbOk` whose every read fails. -/
def dbFail : DB := {
  name := "testdb",
  get_collection := fun _ => some colFail,
  command_explain_aggregate := fun _ _ => .error (),
  command_explain_update := fun _ _ _ => .error (),
  command_explain_delete := fun _ _ => .error () }

/-- A document sample in which the field `flag` is observed once with a
boolean value and once with an integer value. -/
def docsBoolInt : List (List (String × PyVal)) :=
  [[("flag", .bool true)], [("flag", .int 1)]]

/-- A collection that samples to `docsBoolInt`. -/
def colBoolInt : Collection := {
  sample := fun _ => .ok docsBoolInt,
  estimated_document_count := 2,
  index_information := .ok [],
  find_explain := fun _ _ _ => .error () }

/-- A database whose collection samples to `docsBoolInt`. -/
def dbBoolInt : DB := {
  name := "testdb",
  get_collection := fun _ => some colBoolInt,
  command_explain_aggregate := fun _ _ => .error (),
  command_explain_update := fun _ _ _ => .error (),
  command_explain_delete := fun _ _ => .error () }

/-- A document sample in which the field `flag` is observed with a string
value in one document and an integer value in another: two distinct inferred
type tags. -/
def docsMixed : List (List (String × PyVal)) :=
  [[("flag", .str "x")], [("flag", .int 1)]]

/-- A collection that samples to `docsMixed`. -/
def colMixed : Collection := {
  sample := fun _ => .ok docsMixed,
  estimated_document_count := 2,
  index_information := .ok [],
  find_explain := fun _ _ _ => .error () }

/-- A database whose collection samples to `docsMixed`. -/
def dbMixed : DB := {
  name := "testdb",
  get_collection := fun _ => some colMixed,
  command_explain_aggregate := fun _ _ => .error (),
  command_explain_update := fun _ _ _ => .error (),
  command_explain_delete := fun _ _ => .error () }

/-- The extractor membership contract as the specification states it (amended
on the operation-kind conjunct): duration at least the threshold; the
operation kind passes the included-list rule — either every known kind is
excluded (in which case the code installs no operation filter at all) or the
kind is one of the six known kinds and not excluded; and, when the time
window is positive, the timestamp is within the window of now. -/
def extractorSpecPass (now_ms min_duration_ms time_window_minutes : Int)
    (exclude_operations : List String) (e : RawEntry) : Prop :=
  min_duration_ms ≤ e.millis ∧
  ((∀ op ∈ all_operations, op ∈ exclude_operations) ∨
    (e.op ∈ all_operations ∧ e.op ∉ exclude_operations)) ∧
  (0 < time_window_minutes → now_ms - time_window_minutes * 60000 ≤ e.ts)

instance (now_ms min_duration_ms time_window_minutes : Int)
    (exclude_operations : List String) (e : RawEntry) :
    Decidable (extractorSpecPass now_ms min_duration_ms time_window_minutes
      exclude_operations e) := by
  unfold extractorSpecPass
  infer_instance

/-! ### Association-list lemmas shared by the cache and the grouping engine -/

theorem lookup_cons {β : Type} (k a : String) (b : β) (es : List (String × β)) :
    List.lookup k ((a, b) :: es) = if k == a then some b else List.lookup k es := by
  cases h : k == a <;> simp [List.lookup, h]

theorem lookup_map_update {β : Type} (g : β → β) (k : String) :
    ∀ (c : List (String × β)),
      List.lookup k (c.map (fun p => if p.1 == k then (p.1, g p.2) else p))
        = (List.lookup k c).map g := by
  intro c
  induction c with
  | nil => rfl
  | cons p rest ih =>
    obtain ⟨a, b⟩ := p
    by_cases h : a = k
    · simp [lookup_cons, h, ih]
    · have hswap : ¬(k = a) := fun hx => h hx.symm
      simp [lookup_cons, h, hswap]
      simpa using ih

theorem any_beq_eq_isSome_lookup {β : Type} (k : String) :
    ∀ (c : List (String × β)),
      (c.any (fun p => p.1 == k)) = (List.lookup k c).isSome := by
  intro c
  induction c with
  | nil => rfl
  | cons p rest ih =>
    obtain ⟨a, b⟩ := p
    by_cases h : a = k
    · simp [lookup_cons, h]
    · have hswap : ¬(k = a) := fun hx => h hx.symm
      simp [lookup_cons, h, hswap, ih]

theorem lookup_append_singleton {β : Type} (k : String) (e : β) :
    ∀ (c : List (String × β)), List.lookup k c = none →
      List.lookup k (c ++ [(k, e)]) = some e := by
  intro c
  induction c with
  | nil => intro _; simp [lookup_cons]
  | cons p rest ih =>
    intro h
    obtain ⟨a, b⟩ := p
    rw [lookup_cons] at h
    by_cases hk : k = a
    · simp [hk] at h
    · simp only [beq_eq_false_iff_ne.mpr hk, Bool.false_eq_true, if_false] at h
      rw [List.cons_append, lookup_cons]
      simp [beq_eq_false_iff_ne.mpr hk, ih h]

theorem lookup_cacheWrite_self (c : Cache) (k : String) (e : CacheEntry) :
    List.lookup k (cacheWrite c k e) = some e := by
  unfold cacheWrite
  by_cases h : (c.any (fun p => p.1 == k)) = true
  · rw [if_pos h]
    rw [any_beq_eq_isSome_lookup] at h
    have := lookup_map_update (fun _ => e) k c
    rcases hl : List.lookup k c with _ | v
    · rw [hl] at h; simp at h
    · rw [hl] at this; simpa using this
  · rw [if_neg h]
    have h' : (c.any (fun p => p.1 == k)) = false := by
      cases hx : c.any (fun p => p.1 == k)
      · rfl
      · exact absurd hx h
    rw [any_beq_eq_isSome_lookup] at h'
    apply lookup_append_singleton
    rcases hl : List.lookup k c with _ | v
    · rfl
    · rw [hl] at h'; simp at h'

/-! ### C9 -/

/-- C9: the claim that a field whose sampled values are all booleans is tagged
`"boolean"` is contradicted by the code: `isinstance(True, int)` holds in
Python, so the `"int"` branch of `get_type` fires before the (unreachable)
`"boolean"` branch, and an all-boolean field is tagged `"int"`. -/
theorem get_type_bool_is_int :
    get_type (.bool true) = "int" ∧
    get_type (.bool true) ≠ "boolean" ∧
    List.lookup "flag" (foldSchema [[("flag", .bool true)], [("flag", .bool false)]])
      = some "int" :=
  ⟨rfl, by decide, rfl⟩

/-! ### C8 -/

/-- C8 counterexample: the field `flag` is observed with two distinct value
types (a boolean and an integer, `type(True).__name__ ≠ type(1).__name__`),
yet the inferred schema tags it `"int"`, not `"mixed"`: `get_type` collapses
booleans and integers into the same tag, so no conflict is ever detected. -/
theorem mixed_bool_int_cex :
    pyTypeName (.bool true) ≠ pyTypeName (.int 1) ∧
    (get_collection_schema dbBoolInt "users" 100 0 []).1 = [("flag", "int")] ∧
    List.lookup "flag" (get_collection_schema dbBoolInt "users" 100 0 []).1 ≠ some "mixed" :=
  ⟨by decide, rfl, by decide⟩

/-! ### C5 and C6 -/

/-- C5 counterexample: when the first read of a key fails, nothing is stored,
so a later call for the same key runs the expensive computation again rather
than returning the first call's result: against the same process-lifetime
cache, a first `getSchema` call through a failing handle returns the empty
schema and leaves the cache empty, and the second call for the very same key
(same database name) computes and returns a different, non-empty result. -/
theorem cache_recompute_after_failure_cex :
    dbOk.name = dbFail.name ∧
    (get_collection_schema dbFail "users" 100 0 []).2 = [] ∧
    (get_collection_schema dbOk "users" 100 1 (get_collection_schema dbFail "users" 100 0 []).2).1
      ≠ (get_collection_schema dbFail "users" 100 0 []).1 :=
  ⟨rfl, rfl, by decide⟩

/-- C5 (amended): once the first call for a key has performed its computation
successfully (and hence stored the result), any later call for that key — with
an arbitrary engine behind the same database name, an arbitrary sample size
and an arbitrary clock — returns exactly the first call's result and leaves
the cache unchanged; in particular the stored value is served without
consulting the engine again, for `getSchema` and `getIndexes` alike. -/
theorem cache_memoization (db : DB) (coll : String) (n n2 : Nat) (now now2 : Int)
    (c : Cache) (col : Collection) (docs : List (List (String × PyVal))) (idxs : List PyVal)
    (hcol : db.get_collection coll = some col)
    (hs : List.lookup (schemaCacheKey db coll) c = none)
    (hi : List.lookup (indexCacheKey db coll) c = none)
    (hsample : col.sample (sampleSizeFor n col.estimated_document_count) = .ok docs)
    (hidx : col.index_information = .ok idxs) :
    ∀ db2 : DB, db2.name = db.name →
      get_collection_schema db2 coll n2 now2 (get_collection_schema db coll n now c).2
        = get_collection_schema db coll n now c ∧
      get_collection_indexes db2 coll now2 (get_collection_indexes db coll now c).2
        = get_collection_indexes db coll now c := by
  intro db2 hname
  have hkey_s : schemaCacheKey db2 coll = schemaCacheKey db coll := by
    unfold schemaCacheKey; rw [hname]
  have hkey_i : indexCacheKey db2 coll = indexCacheKey db coll := by
    unfold indexCacheKey; rw [hname]
  have h1 : get_collection_schema db coll n now c
      = (foldSchema docs,
         cacheWrite c (schemaCacheKey db coll) ⟨.schemaData (foldSchema docs), now⟩) := by
    simp only [get_collection_schema, hs, hcol, hsample]
  have h2 : get_collection_indexes db coll now c
      = (idxs, cacheWrite c (indexCacheKey db coll) ⟨.indexData idxs, now⟩) := by
    simp only [get_collection_indexes, hi, hcol, hidx]
  constructor
  · rw [h1]
    simp only [get_collection_schema, hkey_s, lookup_cacheWrite_self]
  · rw [h2]
    simp only [get_collection_indexes, hkey_i, lookup_cacheWrite_self]

/-- C5 witness: a healthy first call through `dbOk` populates the cache, and a
second call for the same key through `dbFail` — same database name, but every
engine read failing — still returns the first call's schema and indexes from
the cache, untouched. -/
theorem cache_memoization_witness :
    dbOk.get_collection "users" = some colOk ∧
    List.lookup (schemaCacheKey dbOk "users") ([] : Cache) = none ∧
    List.lookup (indexCacheKey dbOk "users") ([] : Cache) = none ∧
    colOk.sample (sampleSizeFor 100 colOk.estimated_document_count) = .ok docs0 ∧
    colOk.index_information = .ok idxs0 ∧
    dbFail.name = dbOk.name ∧
    (get_collection_schema dbFail "users" 7 99 (get_collection_schema dbOk "users" 100 0 []).2
       = get_collection_schema dbOk "users" 100 0 [] ∧
     get_collection_indexes dbFail "users" 99 (get_collection_indexes dbOk "users" 0 []).2
       = get_collection_indexes dbOk "users" 0 []) :=
  ⟨rfl, rfl, rfl, rfl, rfl, rfl,
    cache_memoization dbOk "users" 100 7 0 99 [] colOk docs0 idxs0 rfl rfl rfl rfl rfl dbFail rfl⟩

/-- C6: when the underlying read fails — the collection is missing or the
engine raises on sampling / index listing — `getSchema` returns the empty
schema and `getIndexes` the empty index list, no error escapes, and the cache
is left exactly as it was (nothing is stored for the failed key). -/
theorem cache_failure_empty_unchanged (db : DB) (coll : String) (n : Nat) (now : Int)
    (c : Cache)
    (hs : List.lookup (schemaCacheKey db coll) c = none)
    (hi : List.lookup (indexCacheKey db coll) c = none)
    (hfail : db.get_collection coll = none ∨
      ∃ col, db.get_collection coll = some col ∧
        col.sample (sampleSizeFor n col.estimated_document_count) = .error () ∧
        col.index_information = .error ()) :
    get_collection_schema db coll n now c = ([], c) ∧
    get_collection_indexes db coll now c = ([], c) := by
  rcases hfail with h | ⟨col, hcol, hsample, hidx⟩
  · constructor
    · simp only [get_collection_schema, hs, h]
    · simp only [get_collection_indexes, hi, h]
  · constructor
    · simp only [get_collection_schema, hs, hcol, hsample]
    · simp only [get_collection_indexes, hi, hcol, hidx]

/-- C6 witness: against the failing handle `dbFail`, both getters return the
empty result and the (empty) cache is unchanged. -/
theorem cache_failure_empty_unchanged_witness :
    List.lookup (schemaCacheKey dbFail "users") ([] : Cache) = none ∧
    List.lookup (indexCacheKey dbFail "users") ([] : Cache) = none ∧
    dbFail.get_collection "users" = some colFail ∧
    colFail.sample (sampleSizeFor 100 colFail.estimated_document_count) = .error () ∧
    colFail.index_information = .error () ∧
    (get_collection_schema dbFail "users" 100 0 [] = ([], []) ∧
     get_collection_indexes dbFail "users" 0 [] = ([], [])) :=
  ⟨rfl, rfl, rfl, rfl, rfl,
    cache_failure_empty_unchanged dbFail "users" 100 0 [] rfl rfl
      (Or.inr ⟨colFail, rfl, rfl, rfl⟩)⟩

/-! ### C1 -/

theorem canonList_eq_map :
    ∀ xs : List PyVal, canonList xs = xs.map canonicalize := by
  intro xs
  induction xs with
  | nil => rfl
  | cons x xs' ih =>
    show canonicalize x :: canonList xs' = _
    rw [List.map_cons, ih]

theorem canonDict_eq_map :
    ∀ kvs : List (String × PyVal),
      canonDict kvs = kvs.map (fun p => (p.1, canonicalize p.2)) := by
  intro kvs
  induction kvs with
  | nil => rfl
  | cons kv rest ih =>
    obtain ⟨k, v⟩ := kv
    show (k, canonicalize v) :: canonDict rest = _
    rw [List.map_cons, ih]

theorem canonDict_map_fst (kvs : List (String × PyVal)) :
    (canonDict kvs).map Prod.fst = kvs.map Prod.fst := by
  rw [canonDict_eq_map, List.map_map]
  rfl

theorem sorted_keyLe_perm_nodup_eq :
    ∀ (l1 l2 : List (String × PyVal)), l1.Perm l2 → List.Sorted keyLe l1 →
      List.Sorted keyLe l2 → (l1.map Prod.fst).Nodup → l1 = l2 := by
  intro l1
  induction l1 with
  | nil =>
    intro l2 hp _ _ _
    rw [hp.symm.eq_nil]
  | cons a t1 ih =>
    intro l2 hp hs1 hs2 hnd
    cases l2 with
    | nil => exact absurd hp.eq_nil (List.cons_ne_nil a t1)
    | cons b t2 =>
      obtain ⟨hmin1, hs1'⟩ := List.sorted_cons.mp hs1
      obtain ⟨hmin2, hs2'⟩ := List.sorted_cons.mp hs2
      have hamem : a ∈ b :: t2 := hp.mem_iff.mp (List.mem_cons_self a t1)
      have hbmem : b ∈ a :: t1 := hp.mem_iff.mpr (List.mem_cons_self b t2)
      have hkeyab : keyLe a b := by
        rcases List.mem_cons.mp hbmem with rfl | hb1
        · exact le_refl _
        · exact hmin1 b hb1
      have hkeyba : keyLe b a := by
        rcases List.mem_cons.mp hamem with rfl | ha2
        · exact le_refl _
        · exact hmin2 a ha2
      have hkey : a.1 = b.1 := String.ext (le_antisymm hkeyab hkeyba)
      have hab : a = b := by
        rcases List.mem_cons.mp hamem with h | ha2
        · exact h
        · rcases List.mem_cons.mp hbmem with h | hb1
          · exact h.symm
          · exfalso
            have : a.1 ∈ t1.map Prod.fst := by
              rw [hkey]
              exact List.mem_map_of_mem Prod.fst hb1
            exact (List.nodup_cons.mp hnd).1 this
      subst hab
      have hp' : t1.Perm t2 := hp.cons_inv
      rw [ih t2 hp' hs1' hs2' (List.nodup_cons.mp hnd).2]

theorem sortByKey_perm_eq (l1 l2 : List (String × PyVal)) (hp : l1.Perm l2)
    (hnd : (l1.map Prod.fst).Nodup) : sortByKey l1 = sortByKey l2 := by
  apply sorted_keyLe_perm_nodup_eq
  · exact (List.perm_insertionSort keyLe l1).trans
      (hp.trans (List.perm_insertionSort keyLe l2).symm)
  · exact List.sorted_insertionSort keyLe l1
  · exact List.sorted_insertionSort keyLe l2
  · have hkeys : ((sortByKey l1).map Prod.fst).Perm (l1.map Prod.fst) :=
      (List.perm_insertionSort keyLe l1).map Prod.fst
    exact hkeys.nodup_iff.mpr hnd

theorem KOEList_length : ∀ (xs ys : List PyVal), KOEList xs ys → xs.length = ys.length := by
  intro xs
  induction xs with
  | nil => intro ys h; cases h; rfl
  | cons x xs' ih =>
    intro ys h
    cases h with
    | cons hxy hrest => simp [ih _ hrest]

theorem KOEDict_length : ∀ (kvs mid : List (String × PyVal)), KOEDict kvs mid →
    kvs.length = mid.length := by
  intro kvs
  induction kvs with
  | nil => intro mid h; cases h; rfl
  | cons kv rest ih =>
    intro mid h
    cases h with
    | cons hvw hrest => simp [ih _ hrest]

theorem normalizeDict_cons (k : String) (v : PyVal) (rest : List (String × PyVal)) :
    normalizeDict ((k, v) :: rest)
      = (k,
          if k ∈ comparison_operator_keys then
            match v with
            | .list [] => .str "<empty_array>"
            | .list (v0 :: _) => .str ("<" ++ pyTypeName v0 ++ "_array>")
            | _ => .str ("<" ++ pyTypeName v ++ ">")
          else if k ∈ text_operator_keys then
            .str ("<" ++ k.drop 1 ++ "_pattern>")
          else if k ∈ structural_operator_keys then
            v
          else
            normalize_query_structure v) :: normalizeDict rest := rfl

theorem normalizeDict_map_fst :
    ∀ kvs : List (String × PyVal), (normalizeDict kvs).map Prod.fst = kvs.map Prod.fst := by
  intro kvs
  induction kvs with
  | nil => rfl
  | cons kv rest ih =>
    obtain ⟨k, v⟩ := kv
    rw [normalizeDict_cons, List.map_cons, List.map_cons, ih]

theorem normalizeDict_length :
    ∀ kvs : List (String × PyVal), (normalizeDict kvs).length = kvs.length := by
  intro kvs
  induction kvs with
  | nil => rfl
  | cons kv rest ih =>
    obtain ⟨k, v⟩ := kv
    rw [normalizeDict_cons, List.length_cons, List.length_cons, ih]

theorem normalizeList_length :
    ∀ xs : List PyVal, (normalizeList xs).length = xs.length := by
  intro xs
  induction xs with
  | nil => rfl
  | cons x xs' ih =>
    show (normalize_query_structure x :: normalizeList xs').length = _
    rw [List.length_cons, List.length_cons, ih]

theorem pyWF_dict_nodup {kvs : List (String × PyVal)} (h : pyWF (.dict kvs) = true) :
    (kvs.map Prod.fst).Nodup := by
  have h' : (decide ((kvs.map Prod.fst).Nodup) && pyWFDict kvs) = true := h
  rw [Bool.and_eq_true] at h'
  exact of_decide_eq_true h'.1

theorem pyWF_dict_vals {kvs : List (String × PyVal)} (h : pyWF (.dict kvs) = true) :
    pyWFDict kvs = true := by
  have h' : (decide ((kvs.map Prod.fst).Nodup) && pyWFDict kvs) = true := h
  rw [Bool.and_eq_true] at h'
  exact h'.2

theorem pyWFDict_cons {k : String} {v : PyVal} {rest : List (String × PyVal)}
    (h : pyWFDict ((k, v) :: rest) = true) : pyWF v = true ∧ pyWFDict rest = true := by
  have h' : (pyWF v && pyWFDict rest) = true := h
  rw [Bool.and_eq_true] at h'
  exact h'

theorem pyWFList_cons {x : PyVal} {rest : List PyVal}
    (h : pyWFList (x :: rest) = true) : pyWF x = true ∧ pyWFList rest = true := by
  have h' : (pyWF x && pyWFList rest) = true := h
  rw [Bool.and_eq_true] at h'
  exact h'

theorem normalizeDict_wf_of (n : Nat)
    (ih : ∀ v : PyVal, sizeOf v < n → pyWF v = true →
      pyWF (normalize_query_structure v) = true) :
    ∀ kvs : List (String × PyVal), sizeOf kvs ≤ n → pyWFDict kvs = true →
      pyWFDict (normalizeDict kvs) = true := by
  intro kvs
  induction kvs with
  | nil => intro _ _; rfl
  | cons kv rest ihr =>
    intro hsz hwf
    obtain ⟨k, v⟩ := kv
    obtain ⟨hv, hrest⟩ := pyWFDict_cons hwf
    have hsv : sizeOf v < n := by
      have hlt : sizeOf v < sizeOf ((k, v) :: rest) := by
        simp only [List.cons.sizeOf_spec, Prod.mk.sizeOf_spec]
        omega
      omega
    have hsr : sizeOf rest ≤ n := by
      have hlt : sizeOf rest < sizeOf ((k, v) :: rest) := by
        simp only [List.cons.sizeOf_spec, Prod.mk.sizeOf_spec]
        omega
      omega
    rw [normalizeDict_cons]
    show (pyWF _ && pyWFDict (normalizeDict rest)) = true
    rw [Bool.and_eq_true]
    constructor
    · by_cases h1 : k ∈ comparison_operator_keys
      · rw [if_pos h1]
        cases v with
        | list xs => cases xs <;> rfl
        | dict kvs2 => rfl
        | str s => rfl
        | int m => rfl
        | float q => rfl
        | bool b => rfl
        | null => rfl
      · rw [if_neg h1]
        by_cases h2 : k ∈ text_operator_keys
        · rw [if_pos h2]; rfl
        · rw [if_neg h2]
          by_cases h3 : k ∈ structural_operator_keys
          · rw [if_pos h3]; exact hv
          · rw [if_neg h3]; exact ih v hsv hv
    · exact ihr hsr hrest

theorem normalizeList_wf_of (n : Nat)
    (ih : ∀ v : PyVal, sizeOf v < n → pyWF v = true →
      pyWF (normalize_query_structure v) = true) :
    ∀ xs : List PyVal, sizeOf xs ≤ n → pyWFList xs = true →
      pyWFList (normalizeList xs) = true := by
  intro xs
  induction xs with
  | nil => intro _ _; rfl
  | cons x rest ihr =>
    intro hsz hwf
    obtain ⟨hx, hrest⟩ := pyWFList_cons hwf
    have hsx : sizeOf x < n := by
      have hlt : sizeOf x < sizeOf (x :: rest) := by
        simp only [List.cons.sizeOf_spec]
        omega
      omega
    have hsr : sizeOf rest ≤ n := by
      have hlt : sizeOf rest < sizeOf (x :: rest) := by
        simp only [List.cons.sizeOf_spec]
        omega
      omega
    show (pyWF (normalize_query_structure x) && pyWFList (normalizeList rest)) = true
    rw [Bool.and_eq_true]
    exact ⟨ih x hsx hx, ihr hsr hrest⟩

theorem normalize_wf : ∀ v : PyVal, pyWF v = true →
    pyWF (normalize_query_structure v) = true := by
  suffices h : ∀ (n : Nat) (v : PyVal), sizeOf v ≤ n → pyWF v = true →
      pyWF (normalize_query_structure v) = true by
    intro v
    exact h (sizeOf v) v (le_refl _)
  intro n
  induction n using Nat.strong_induction_on with
  | _ n ih =>
    intro v hsz hwf
    have ih' : ∀ w : PyVal, sizeOf w < n → pyWF w = true →
        pyWF (normalize_query_structure w) = true :=
      fun w hw hwfw => ih (sizeOf w) hw w (le_refl _) hwfw
    cases v with
    | dict kvs =>
      have hnodup := pyWF_dict_nodup hwf
      have hvals := pyWF_dict_vals hwf
      have hsk : sizeOf kvs ≤ n := by
        have hlt : sizeOf kvs < sizeOf (PyVal.dict kvs) := by
          simp only [PyVal.dict.sizeOf_spec]
          omega
        omega
      show pyWF (.dict (normalizeDict kvs)) = true
      have hres : (decide (((normalizeDict kvs).map Prod.fst).Nodup)
          && pyWFDict (normalizeDict kvs)) = true := by
        rw [Bool.and_eq_true]
        constructor
        · rw [normalizeDict_map_fst]
          exact decide_eq_true hnodup
        · exact normalizeDict_wf_of n ih' kvs hsk hvals
      exact hres
    | list xs =>
      have hsx : sizeOf xs ≤ n := by
        have hlt : sizeOf xs < sizeOf (PyVal.list xs) := by
          simp only [PyVal.list.sizeOf_spec]
          omega
        omega
      exact normalizeList_wf_of n ih' xs hsx hwf
    | str s => rfl
    | int m => rfl
    | float q => rfl
    | bool b => rfl
    | null => rfl

theorem koeList_canon_of (n : Nat)
    (ih : ∀ v w : PyVal, sizeOf v < n → KOE v w → pyWF v = true →
      canonicalize v = canonicalize w) :
    ∀ xs ys : List PyVal, KOEList xs ys → sizeOf xs ≤ n → pyWFList xs = true →
      canonList xs = canonList ys := by
  intro xs
  induction xs with
  | nil => intro ys h _ _; cases h; rfl
  | cons x xs' ihr =>
    intro ys h hsz hwf
    cases h with
    | cons hxy hrest =>
      obtain ⟨hx, hxs⟩ := pyWFList_cons hwf
      have hs1 : sizeOf x < n := by
        have hlt : sizeOf x < sizeOf (x :: xs') := by
          simp only [List.cons.sizeOf_spec]
          omega
        omega
      have hs2 : sizeOf xs' ≤ n := by
        have hlt : sizeOf xs' < sizeOf (x :: xs') := by
          simp only [List.cons.sizeOf_spec]
          omega
        omega
      show canonicalize x :: canonList xs' = _
      rw [ih x _ hs1 hxy hx, ihr _ hrest hs2 hxs]
      rfl

theorem koeDict_canon_of (n : Nat)
    (ih : ∀ v w : PyVal, sizeOf v < n → KOE v w → pyWF v = true →
      canonicalize v = canonicalize w) :
    ∀ kvs mid : List (String × PyVal), KOEDict kvs mid → sizeOf kvs ≤ n →
      pyWFDict kvs = true → canonDict kvs = canonDict mid := by
  intro kvs
  induction kvs with
  | nil => intro mid h _ _; cases h; rfl
  | cons kv rest ihr =>
    intro mid h hsz hwf
    cases h with
    | cons hvw hrest =>
      rename_i k v w rest2
      obtain ⟨hv, hrestwf⟩ := pyWFDict_cons hwf
      have hs1 : sizeOf v < n := by
        have hlt : sizeOf v < sizeOf ((k, v) :: rest) := by
          simp only [List.cons.sizeOf_spec, Prod.mk.sizeOf_spec]
          omega
        omega
      have hs2 : sizeOf rest ≤ n := by
        have hlt : sizeOf rest < sizeOf ((k, v) :: rest) := by
          simp only [List.cons.sizeOf_spec, Prod.mk.sizeOf_spec]
          omega
        omega
      show (k, canonicalize v) :: canonDict rest = _
      rw [ih v w hs1 hvw hv, ihr rest2 hrest hs2 hrestwf]
      rfl

theorem koe_canon : ∀ v w : PyVal, KOE v w → pyWF v = true →
    canonicalize v = canonicalize w := by
  suffices h : ∀ (n : Nat) (v w : PyVal), sizeOf v ≤ n → KOE v w → pyWF v = true →
      canonicalize v = canonicalize w by
    intro v w hk hwf
    exact h (sizeOf v) v w (le_refl _) hk hwf
  intro n
  induction n using Nat.strong_induction_on with
  | _ n ih =>
    intro v w hsz hk hwf
    have ih' : ∀ v' w' : PyVal, sizeOf v' < n → KOE v' w' → pyWF v' = true →
        canonicalize v' = canonicalize w' :=
      fun v' w' hv' hk' hwf' => ih (sizeOf v') hv' v' w' (le_refl _) hk' hwf'
    cases hk with
    | str s => rfl
    | int m => rfl
    | float q => rfl
    | bool b => rfl
    | null => rfl
    | list hl =>
      rename_i xs ys
      have hsx : sizeOf xs ≤ n := by
        have hlt : sizeOf xs < sizeOf (PyVal.list xs) := by
          simp only [PyVal.list.sizeOf_spec]
          omega
        omega
      show PyVal.list (canonList xs) = PyVal.list (canonList ys)
      rw [koeList_canon_of n ih' xs ys hl hsx hwf]
    | dict hd hperm =>
      rename_i kvs mid kvs2
      have hsk : sizeOf kvs ≤ n := by
        have hlt : sizeOf kvs < sizeOf (PyVal.dict kvs) := by
          simp only [PyVal.dict.sizeOf_spec]
          omega
        omega
      have h1 : canonDict kvs = canonDict mid :=
        koeDict_canon_of n ih' kvs mid hd hsk (pyWF_dict_vals hwf)
      have h2 : (canonDict mid).Perm (canonDict kvs2) := by
        rw [canonDict_eq_map, canonDict_eq_map]
        exact hperm.map _
      have hperm' : (canonDict kvs).Perm (canonDict kvs2) := by
        rw [h1]
        exact h2
      have hnd : ((canonDict kvs).map Prod.fst).Nodup := by
        rw [canonDict_map_fst]
        exact pyWF_dict_nodup hwf
      show PyVal.dict (sortByKey (canonDict kvs)) = PyVal.dict (sortByKey (canonDict kvs2))
      rw [sortByKey_perm_eq _ _ hperm' hnd]

theorem KOE_truthy_normalize (v w : PyVal) (hv : docShaped v = true) (hw : docShaped w = true)
    (hk : KOE (normalize_query_structure v) (normalize_query_structure w)) :
    pyTruthy v = pyTruthy w := by
  cases v with
  | dict kvs1 =>
    cases w with
    | dict kvs2 =>
      have hlen : kvs1.length = kvs2.length := by
        have h1 : KOE (.dict (normalizeDict kvs1)) (.dict (normalizeDict kvs2)) := hk
        cases h1 with
        | dict hd hperm =>
          have e0 := KOEDict_length _ _ hd
          have e1 := hperm.length_eq
          have e2 := normalizeDict_length kvs1
          have e3 := normalizeDict_length kvs2
          omega
      show (!kvs1.isEmpty) = (!kvs2.isEmpty)
      cases kvs1 with
      | nil =>
        cases kvs2 with
        | nil => rfl
        | cons b l2 => simp at hlen
      | cons a l1 =>
        cases kvs2 with
        | nil => simp at hlen
        | cons b l2 => rfl
    | list ys =>
      have h1 : KOE (.dict (normalizeDict kvs1)) (.list (normalizeList ys)) := hk
      cases h1
    | str s => simp [docShaped, isinstance_dict, isinstance_list] at hw
    | int m => simp [docShaped, isinstance_dict, isinstance_list] at hw
    | float q => simp [docShaped, isinstance_dict, isinstance_list] at hw
    | bool b => simp [docShaped, isinstance_dict, isinstance_list] at hw
    | null => simp [docShaped, isinstance_dict, isinstance_list] at hw
  | list xs =>
    cases w with
    | dict kvs2 =>
      have h1 : KOE (.list (normalizeList xs)) (.dict (normalizeDict kvs2)) := hk
      cases h1
    | list ys =>
      have hlen : xs.length = ys.length := by
        have h1 : KOE (.list (normalizeList xs)) (.list (normalizeList ys)) := hk
        cases h1 with
        | list hl =>
          have e0 := KOEList_length _ _ hl
          have e1 := normalizeList_length xs
          have e2 := normalizeList_length ys
          omega
      show (!xs.isEmpty) = (!ys.isEmpty)
      cases xs with
      | nil =>
        cases ys with
        | nil => rfl
        | cons b l2 => simp at hlen
      | cons a l1 =>
        cases ys with
        | nil => simp at hlen
        | cons b l2 => rfl
    | str s => simp [docShaped, isinstance_dict, isinstance_list] at hw
    | int m => simp [docShaped, isinstance_dict, isinstance_list] at hw
    | float q => simp [docShaped, isinstance_dict, isinstance_list] at hw
    | bool b => simp [docShaped, isinstance_dict, isinstance_list] at hw
    | null => simp [docShaped, isinstance_dict, isinstance_list] at hw
  | str s => simp [docShaped, isinstance_dict, isinstance_list] at hv
  | int m => simp [docShaped, isinstance_dict, isinstance_list] at hv
  | float q => simp [docShaped, isinstance_dict, isinstance_list] at hv
  | bool b => simp [docShaped, isinstance_dict, isinstance_list] at hv
  | null => simp [docShaped, isinstance_dict, isinstance_list] at hv

theorem OptDetailEquiv_truthy {x y : Option PyVal} (h : OptDetailEquiv x y) :
    pyTruthyOpt x = pyTruthyOpt y := by
  rcases h with ⟨hx, hy⟩ | ⟨v, w, hx, hy, hdv, hdw, _, _, hk⟩
  · rw [hx, hy]
  · rw [hx, hy]
    show pyTruthy v = pyTruthy w
    exact KOE_truthy_normalize v w hdv hdw hk

theorem OptDetailEquiv_canon {x y : Option PyVal} (h : OptDetailEquiv x y) :
    canonicalize (normalize_query_structure (x.getD .null))
      = canonicalize (normalize_query_structure (y.getD .null)) := by
  rcases h with ⟨hx, hy⟩ | ⟨v, w, hx, hy, _, _, hwfv, _, hk⟩
  · rw [hx, hy]
  · rw [hx, hy]
    show canonicalize (normalize_query_structure v) = canonicalize (normalize_query_structure w)
    exact koe_canon _ _ hk (normalize_wf v hwfv)

/-- C1: the signature is a pure function of namespace, operation kind,
payload tag, and the normalized operation details as they enter the
signature.  Two records whose details are document-shaped, well-formed, and
normalize to the same structure up to mapping insertion order receive
identical signatures, whatever their literal filter values; no hypothesis
constrains `duration_ms`, `ts`, `planSummary`, the scan counters or
`command_details`, so the signature never depends on them; and the stated
key-order freedom holds because serialization sorts all mapping keys
canonically. -/
theorem signature_literal_independent (digest : String → String) (a b : QueryRecord)
    (hns : a.ns = b.ns) (hop : a.op_type = b.op_type) (hty : a.type = b.type)
    (hf : OptDetailEquiv a.original_query_filter b.original_query_filter)
    (hsort : OptDetailEquiv a.original_query_sort b.original_query_sort)
    (horder : OptDetailEquiv a.original_query_orderby b.original_query_orderby)
    (hproj : OptDetailEquiv a.original_query_projection b.original_query_projection)
    (hpipe : OptDetailEquiv a.original_query_pipeline b.original_query_pipeline)
    (hupd : OptDetailEquiv a.original_query_update b.original_query_update) :
    get_query_signature digest a = get_query_signature digest b := by
  have htf := OptDetailEquiv_truthy hf
  have hts := OptDetailEquiv_truthy hsort
  have hto := OptDetailEquiv_truthy horder
  have htp := OptDetailEquiv_truthy hproj
  have htpl := OptDetailEquiv_truthy hpipe
  have htu := OptDetailEquiv_truthy hupd
  suffices h : canonDict (signature_components a) = canonDict (signature_components b) by
    show digest (pyToJson (canonicalize (.dict (signature_components a))))
      = digest (pyToJson (canonicalize (.dict (signature_components b))))
    rw [show canonicalize (.dict (signature_components a))
          = .dict (sortByKey (canonDict (signature_components a))) from rfl,
        show canonicalize (.dict (signature_components b))
          = .dict (sortByKey (canonDict (signature_components b))) from rfl,
        h]
  have hbF : (if pyTruthyOpt b.original_query_filter = true then
        [(("filter" : String),
          normalize_query_structure (a.original_query_filter.getD PyVal.null))] else []).map
        (fun p => (p.1, canonicalize p.2))
      = (if pyTruthyOpt b.original_query_filter = true then
        [(("filter" : String),
          normalize_query_structure (b.original_query_filter.getD PyVal.null))] else []).map
        (fun p => (p.1, canonicalize p.2)) := by
    by_cases hc : pyTruthyOpt b.original_query_filter = true
    · rw [if_pos hc, if_pos hc]
      simp only [List.map_cons, List.map_nil]
      rw [OptDetailEquiv_canon hf]
    · rw [if_neg hc, if_neg hc]
  have hbS : (if (pyTruthyOpt b.original_query_sort
          || pyTruthyOpt b.original_query_orderby) = true then
        [(("sort" : String), normalize_query_structure
          (pyOrOpt a.original_query_sort a.original_query_orderby))] else []).map
        (fun p => (p.1, canonicalize p.2))
      = (if (pyTruthyOpt b.original_query_sort
          || pyTruthyOpt b.original_query_orderby) = true then
        [(("sort" : String), normalize_query_structure
          (pyOrOpt b.original_query_sort b.original_query_orderby))] else []).map
        (fun p => (p.1, canonicalize p.2)) := by
    by_cases hcs : pyTruthyOpt b.original_query_sort = true
    · have has : pyTruthyOpt a.original_query_sort = true := by rw [hts]; exact hcs
      have ha1 : pyOrOpt a.original_query_sort a.original_query_orderby
          = a.original_query_sort.getD .null := by
        unfold pyOrOpt
        rw [if_pos has]
      have hb1 : pyOrOpt b.original_query_sort b.original_query_orderby
          = b.original_query_sort.getD .null := by
        unfold pyOrOpt
        rw [if_pos hcs]
      have hcond : (pyTruthyOpt b.original_query_sort
          || pyTruthyOpt b.original_query_orderby) = true := by
        rw [hcs]
        rfl
      rw [if_pos hcond, if_pos hcond, ha1, hb1]
      simp only [List.map_cons, List.map_nil]
      rw [OptDetailEquiv_canon hsort]
    · have hcs' : pyTruthyOpt b.original_query_sort = false := by
        cases hx : pyTruthyOpt b.original_query_sort
        · rfl
        · exact absurd hx hcs
      have has' : pyTruthyOpt a.original_query_sort = false := by rw [hts]; exact hcs'
      by_cases hco : pyTruthyOpt b.original_query_orderby = true
      · have ha1 : pyOrOpt a.original_query_sort a.original_query_orderby
            = a.original_query_orderby.getD .null := by
          unfold pyOrOpt
          rw [has']
          simp only [Bool.false_eq_true, if_false]
        have hb1 : pyOrOpt b.original_query_sort b.original_query_orderby
            = b.original_query_orderby.getD .null := by
          unfold pyOrOpt
          rw [hcs']
          simp only [Bool.false_eq_true, if_false]
        have hcond : (pyTruthyOpt b.original_query_sort
            || pyTruthyOpt b.original_query_orderby) = true := by
          rw [hcs', hco]
          rfl
        rw [if_pos hcond, if_pos hcond, ha1, hb1]
        simp only [List.map_cons, List.map_nil]
        rw [OptDetailEquiv_canon horder]
      · have hco' : pyTruthyOpt b.original_query_orderby = false := by
          cases hx : pyTruthyOpt b.original_query_orderby
          · rfl
          · exact absurd hx hco
        have hcond : ¬((pyTruthyOpt b.original_query_sort
            || pyTruthyOpt b.original_query_orderby) = true) := by
          rw [hcs', hco']
          simp
        rw [if_neg hcond, if_neg hcond]
  have hbP : (if pyTruthyOpt b.original_query_projection = true then
        [(("projection" : String),
          normalize_query_structure (a.original_query_projection.getD PyVal.null))] else []).map
        (fun p => (p.1, canonicalize p.2))
      = (if pyTruthyOpt b.original_query_projection = true then
        [(("projection" : String),
          normalize_query_structure (b.original_query_projection.getD PyVal.null))] else []).map
        (fun p => (p.1, canonicalize p.2)) := by
    by_cases hc : pyTruthyOpt b.original_query_projection = true
    · rw [if_pos hc, if_pos hc]
      simp only [List.map_cons, List.map_nil]
      rw [OptDetailEquiv_canon hproj]
    · rw [if_neg hc, if_neg hc]
  have hbPl : (if pyTruthyOpt b.original_query_pipeline = true then
        [(("pipeline" : String),
          normalize_query_structure (a.original_query_pipeline.getD PyVal.null))] else []).map
        (fun p => (p.1, canonicalize p.2))
      = (if pyTruthyOpt b.original_query_pipeline = true then
        [(("pipeline" : String),
          normalize_query_structure (b.original_query_pipeline.getD PyVal.null))] else []).map
        (fun p => (p.1, canonicalize p.2)) := by
    by_cases hc : pyTruthyOpt b.original_query_pipeline = true
    · rw [if_pos hc, if_pos hc]
      simp only [List.map_cons, List.map_nil]
      rw [OptDetailEquiv_canon hpipe]
    · rw [if_neg hc, if_neg hc]
  have hbU : (if pyTruthyOpt b.original_query_update = true then
        [(("update" : String),
          normalize_query_structure (a.original_query_update.getD PyVal.null))] else []).map
        (fun p => (p.1, canonicalize p.2))
      = (if pyTruthyOpt b.original_query_update = true then
        [(("update" : String),
          normalize_query_structure (b.original_query_update.getD PyVal.null))] else []).map
        (fun p => (p.1, canonicalize p.2)) := by
    by_cases hc : pyTruthyOpt b.original_query_update = true
    · rw [if_pos hc, if_pos hc]
      simp only [List.map_cons, List.map_nil]
      rw [OptDetailEquiv_canon hupd]
    · rw [if_neg hc, if_neg hc]
  rw [canonDict_eq_map, canonDict_eq_map]
  unfold signature_components
  rw [hns, hop, hty, htf, hts, hto, htp, htpl, htu]
  simp only [List.map_append]
  rw [hbF, hbS, hbP, hbPl, hbU]

/-- C1 witness: `qA` and `qASwapped` share namespace, kind and payload tag
but differ in filter literals, filter key insertion order, duration,
timestamp and plan summary — and receive identical signatures. -/
theorem signature_literal_independent_witness :
    qA.ns = qASwapped.ns ∧ qA.op_type = qASwapped.op_type ∧ qA.type = qASwapped.type ∧
    qA.duration_ms ≠ qASwapped.duration_ms ∧ qA.ts ≠ qASwapped.ts ∧
    pyToJson (qA.original_query_filter.getD .null)
      ≠ pyToJson (qASwapped.original_query_filter.getD .null) ∧
    get_query_signature id qA = get_query_signature id qASwapped := by
  have hkoe : KOE (normalize_query_structure (.dict
        [("status", .str "delivered"), ("user_id", .int 5)]))
      (normalize_query_structure (.dict [("user_id", .int 99), ("status", .str "x")])) := by
    show KOE (.dict [("status", .str "<str>"), ("user_id", .str "<int>")])
      (.dict [("user_id", .str "<int>"), ("status", .str "<str>")])
    exact KOE.dict
      (KOEDict.cons (KOE.str "<str>") (KOEDict.cons (KOE.str "<int>") KOEDict.nil))
      (List.Perm.swap _ _ _)
  have hf : OptDetailEquiv qA.original_query_filter qASwapped.original_query_filter :=
    Or.inr ⟨.dict [("status", .str "delivered"), ("user_id", .int 5)],
      .dict [("user_id", .int 99), ("status", .str "x")],
      rfl, rfl, rfl, rfl, rfl, rfl, hkoe⟩
  refine ⟨rfl, rfl, rfl, by decide, by decide, by decide, ?_⟩
  exact signature_literal_independent id qA qASwapped rfl rfl rfl hf
    (Or.inl ⟨rfl, rfl⟩) (Or.inl ⟨rfl, rfl⟩) (Or.inl ⟨rfl, rfl⟩)
    (Or.inl ⟨rfl, rfl⟩) (Or.inl ⟨rfl, rfl⟩)

/-! ### C7 -/

theorem normalizeList_eq_map :
    ∀ xs : List PyVal, normalizeList xs = xs.map normalize_query_structure := by
  intro xs
  induction xs with
  | nil => rfl
  | cons x xs' ih =>
    show normalize_query_structure x :: normalizeList xs' = _
    rw [List.map_cons, ih]

theorem normalizeDict_forall₂ :
    ∀ kvs : List (String × PyVal), List.Forall₂ c7EntryRel kvs (normalizeDict kvs) := by
  intro kvs
  induction kvs with
  | nil => exact List.Forall₂.nil
  | cons kv rest ih =>
    obtain ⟨k, v⟩ := kv
    refine List.Forall₂.cons ?_ ih
    refine ⟨rfl, ?_, ?_, ?_, ?_, ?_, ?_⟩
    · intro hcmp hnl
      show (if k ∈ comparison_operator_keys then _ else _) = _
      rw [if_pos hcmp]
      cases v with
      | list xs => simp [isinstance_list] at hnl
      | dict kvs2 => rfl
      | str s => rfl
      | int n => rfl
      | float q => rfl
      | bool b => rfl
      | null => rfl
    · intro hin hveq
      have hcmp : k ∈ comparison_operator_keys := by
        have h2 : k = "$in" ∨ k = "$nin" := by simpa using hin
        rcases h2 with rfl | rfl <;> decide
      have hv : v = .list [] := hveq
      subst hv
      show (if k ∈ comparison_operator_keys then _ else _) = _
      rw [if_pos hcmp]
    · intro hin v0 vs hveq
      have hcmp : k ∈ comparison_operator_keys := by
        have h2 : k = "$in" ∨ k = "$nin" := by simpa using hin
        rcases h2 with rfl | rfl <;> decide
      have hv : v = .list (v0 :: vs) := hveq
      subst hv
      show (if k ∈ comparison_operator_keys then _ else _) = _
      rw [if_pos hcmp]
    · intro htext
      have h3 : k = "$regex" ∨ k = "$text" ∨ k = "$where" := by
        simpa [text_operator_keys] using htext
      have hnc : k ∉ comparison_operator_keys := by
        rcases h3 with rfl | rfl | rfl <;> decide
      show (if k ∈ comparison_operator_keys then _ else _) = _
      rw [if_neg hnc, if_pos htext]
    · intro hstr
      have h3 : k = "$exists" ∨ k = "$type" ∨ k = "$size" := by
        simpa [structural_operator_keys] using hstr
      have hnc : k ∉ comparison_operator_keys := by
        rcases h3 with rfl | rfl | rfl <;> decide
      have hnt : k ∉ text_operator_keys := by
        rcases h3 with rfl | rfl | rfl <;> decide
      show (if k ∈ comparison_operator_keys then _ else _) = _
      rw [if_neg hnc, if_neg hnt, if_pos hstr]
    · intro hnc hnt hns
      show (if k ∈ comparison_operator_keys then _ else _) = _
      rw [if_neg hnc, if_neg hnt, if_neg hns]

/-- C7: the per-key rules of the normalizer, as the specification states
them: keys are preserved in order (the entry lists are related pointwise); a
comparison-operator key's non-sequence value becomes `"<{type}>"`; a
set-membership key's sequence value becomes `"<{type}_array>"` from the first
element (or `"<empty_array>"` when empty); a pattern key (`$regex`/`$text`/
`$where`) becomes the fixed `"<{name}_pattern>"` marker; a structural key
(`$exists`/`$type`/`$size`) keeps its value verbatim; every other key's value
is normalized recursively; sequences are normalized elementwise preserving
order and length; and bare scalars become `"<{type}>"`. -/
theorem normalize_rules :
    (∀ kvs, normalize_query_structure (.dict kvs) = .dict (normalizeDict kvs) ∧
      List.Forall₂ c7EntryRel kvs (normalizeDict kvs)) ∧
    (∀ xs, normalize_query_structure (.list xs) = .list (xs.map normalize_query_structure)) ∧
    (∀ v, isinstance_dict v = false → isinstance_list v = false →
      normalize_query_structure v = .str ("<" ++ pyTypeName v ++ ">")) := by
  refine ⟨fun kvs => ⟨rfl, normalizeDict_forall₂ kvs⟩, ?_, ?_⟩
  · intro xs
    show PyVal.list (normalizeList xs) = _
    rw [normalizeList_eq_map]
  · intro v h1 h2
    cases v with
    | dict kvs => simp [isinstance_dict] at h1
    | list xs => simp [isinstance_list] at h2
    | str s => rfl
    | int n => rfl
    | float q => rfl
    | bool b => rfl
    | null => rfl

/-- C7 witness: the rules instantiated on a concrete filter exercising a
comparison key, a pattern key, a structural key and a plain field with a
nested set-membership operator, together with the concrete normalized form. -/
theorem normalize_rules_witness :
    List.Forall₂ c7EntryRel
      [("$gt", .int 5), ("$regex", .str "abc"), ("$exists", .bool true),
        ("tags", .dict [("$in", .list [.str "a"])])]
      (normalizeDict [("$gt", .int 5), ("$regex", .str "abc"), ("$exists", .bool true),
        ("tags", .dict [("$in", .list [.str "a"])])]) ∧
    normalizeDict [("$gt", .int 5), ("$regex", .str "abc"), ("$exists", .bool true),
        ("tags", .dict [("$in", .list [.str "a"])])]
      = [("$gt", .str "<int>"), ("$regex", .str "<regex_pattern>"),
          ("$exists", .bool true), ("tags", .dict [("$in", .str "<str_array>")])] ∧
    normalize_query_structure (.int 7) = .str "<int>" :=
  ⟨(normalize_rules.1 _).2, rfl, normalize_rules.2.2 (.int 7) rfl rfl⟩

/-! ### C10 -/

/-- C10: for a representative whose operation kind is `getmore`, or whose
shape matches none of the recognized find/aggregate/update/delete branch
guards, `get_explain_plan` returns `none` without any error — for every
engine behaviour — and the driver's per-representative explain step does the
same. -/
theorem explain_plan_unsupported_none (db : DB) (coll : String) (q : QueryRecord)
    (h : q.op_type = some "getmore" ∨
      (findShape q = false ∧ aggShape q = false ∧ updateDeleteShape q = false)) :
    get_explain_plan db coll q = none ∧ main_explain_step db coll q = none := by
  have hshapes : findShape q = false ∧ aggShape q = false ∧ updateDeleteShape q = false := by
    rcases h with h | h
    · refine ⟨?_, ?_, ?_⟩ <;> simp [findShape, aggShape, updateDeleteShape, h]
    · exact h
  obtain ⟨hf, ha, hu⟩ := hshapes
  have hplan : get_explain_plan db coll q = none := by
    unfold get_explain_plan
    cases hcol : db.get_collection coll with
    | none => rfl
    | some col => simp [hf, ha, hu]
  refine ⟨hplan, ?_⟩
  unfold main_explain_step
  cases hb : (q.op_type == some "getmore") <;> simp [hb, hplan]

/-- C10 witness: a `getmore` record gets no plan even against a fully healthy
engine. -/
theorem explain_plan_unsupported_none_witness :
    qGetmore.op_type = some "getmore" ∧
    get_explain_plan dbOk "orders" qGetmore = none ∧
    main_explain_step dbOk "orders" qGetmore = none :=
  ⟨rfl, (explain_plan_unsupported_none dbOk "orders" qGetmore (Or.inl rfl)).1,
    (explain_plan_unsupported_none dbOk "orders" qGetmore (Or.inl rfl)).2⟩

/-! ### C4 -/

/-- C4 counterexample: the claim says the output contains exactly the entries
whose duration meets the threshold and whose operation kind is not in the
excluded list (the window being non-positive); the entry `eKill` (duration
200 ≥ 100, kind `killcursors` not in the empty excluded list) satisfies that,
yet the extractor's output is empty — the code only admits the six kinds
listed in `all_operations`, and `killcursors` is not one of them. -/
theorem get_slow_queries_unknown_op_cex :
    (100 : Int) ≤ eKill.millis ∧
    eKill.op ∉ ([] : List String) ∧
    get_slow_queries true true 0 [eKill] 100 [] 0 = [] :=
  ⟨by decide, by decide, rfl⟩

/-- The extractor copies the raw entry's duration unchanged. -/
theorem extract_query_info_duration (e : RawEntry) :
    (extract_query_info e).duration_ms = e.millis := by
  unfold extract_query_info
  cases e.command with
  | some cmd =>
    dsimp only
    split_ifs <;> rfl
  | none => cases e.query <;> rfl

/-- The code's filter predicate agrees with the specification's membership
predicate (in its amended form) on every entry. -/
theorem get_slow_queries_pass_agrees (now_ms min_duration_ms time_window_minutes : Int)
    (exclude_operations : List String) (e : RawEntry) :
    (decide (min_duration_ms ≤ e.millis)
      && ((all_operations.filter (fun op => op ∉ exclude_operations)).isEmpty
          || (all_operations.filter (fun op => op ∉ exclude_operations)).contains e.op)
      && (decide (time_window_minutes ≤ 0)
          || decide (now_ms - time_window_minutes * 60000 ≤ e.ts)))
      = decide (extractorSpecPass now_ms min_duration_ms time_window_minutes
          exclude_operations e) := by
  have hc : ((all_operations.filter (fun op => op ∉ exclude_operations)).contains e.op = true)
      ↔ (e.op ∈ all_operations ∧ e.op ∉ exclude_operations) := by
    rw [List.elem_iff]
    simp [List.mem_filter]
  have hemp : ((all_operations.filter (fun op => op ∉ exclude_operations)).isEmpty = true)
      ↔ (∀ op ∈ all_operations, op ∈ exclude_operations) := by
    rw [List.isEmpty_iff, List.filter_eq_nil_iff]
    simp
  rw [Bool.eq_iff_iff]
  simp only [Bool.and_eq_true, Bool.or_eq_true, decide_eq_true_eq, hc, hemp,
    extractorSpecPass]
  constructor
  · rintro ⟨⟨h1, h2⟩, h3⟩
    refine ⟨h1, h2, ?_⟩
    intro hw
    rcases h3 with h3 | h3
    · omega
    · exact h3
  · rintro ⟨h1, h2, h3⟩
    refine ⟨⟨h1, h2⟩, ?_⟩
    by_cases hw : 0 < time_window_minutes
    · exact Or.inr (h3 hw)
    · exact Or.inl (by omega)

/-- C4 (amended): with the profile collection present and readable, the
extractor's output is, up to the descending-duration sort, exactly the image
of the entries satisfying the specification's membership predicate — duration
at least the threshold, operation kind passing the included-list rule (one of
the six known kinds and not excluded; no restriction when every known kind is
excluded), timestamp within a positive window — and it is sorted by duration
descending. -/
theorem get_slow_queries_filter_sort (now_ms : Int) (entries : List RawEntry)
    (min_duration_ms : Int) (exclude_operations : List String)
    (time_window_minutes : Int) :
    (get_slow_queries true true now_ms entries min_duration_ms exclude_operations
        time_window_minutes).Perm
      ((entries.filter (fun e => decide (extractorSpecPass now_ms min_duration_ms
          time_window_minutes exclude_operations e))).map extract_query_info) ∧
    List.Sorted (fun a b : QueryRecord => b.duration_ms ≤ a.duration_ms)
      (get_slow_queries true true now_ms entries min_duration_ms exclude_operations
        time_window_minutes) := by
  have hunfold : get_slow_queries true true now_ms entries min_duration_ms
      exclude_operations time_window_minutes
      = (List.insertionSort millisGe (entries.filter (fun e =>
          decide (min_duration_ms ≤ e.millis)
          && ((all_operations.filter (fun op => op ∉ exclude_operations)).isEmpty
              || (all_operations.filter (fun op => op ∉ exclude_operations)).contains e.op)
          && (decide (time_window_minutes ≤ 0)
              || decide (now_ms - time_window_minutes * 60000 ≤ e.ts))))).map
          extract_query_info := by
    rfl
  have hfilter : entries.filter (fun e =>
      decide (min_duration_ms ≤ e.millis)
      && ((all_operations.filter (fun op => op ∉ exclude_operations)).isEmpty
          || (all_operations.filter (fun op => op ∉ exclude_operations)).contains e.op)
      && (decide (time_window_minutes ≤ 0)
          || decide (now_ms - time_window_minutes * 60000 ≤ e.ts)))
      = entries.filter (fun e => decide (extractorSpecPass now_ms min_duration_ms
          time_window_minutes exclude_operations e)) :=
    List.filter_congr (fun e _ =>
      get_slow_queries_pass_agrees now_ms min_duration_ms time_window_minutes
        exclude_operations e)
  constructor
  · rw [hunfold, hfilter]
    exact List.Perm.map extract_query_info (List.perm_insertionSort millisGe _)
  · rw [hunfold]
    exact List.Pairwise.map extract_query_info
      (fun a b hab => by
        rw [extract_query_info_duration, extract_query_info_duration]; exact hab)
      (List.sorted_insertionSort millisGe _)

/-! ### C2 -/

theorem map_fst_update (s : String) (q : QueryRecord) :
    ∀ m : List (String × List QueryRecord),
      ((m.map (fun p => if p.1 == s then (p.1, p.2 ++ [q]) else p)).map Prod.fst)
        = m.map Prod.fst := by
  intro m
  induction m with
  | nil => rfl
  | cons p rest ih =>
    cases hb : (p.1 == s) with
    | false => simp only [List.map_cons, hb, Bool.false_eq_true, if_false, ih]
    | true => simp only [List.map_cons, hb, if_true, ih]

theorem any_fst_iff_mem (s : String) (m : List (String × List QueryRecord)) :
    (m.any (fun p => p.1 == s) = true) ↔ s ∈ m.map Prod.fst := by
  simp [List.any_eq_true, List.mem_map, beq_iff_eq]

theorem map_update_id (s : String) (q : QueryRecord) :
    ∀ m : List (String × List QueryRecord), (∀ p ∈ m, p.1 ≠ s) →
      m.map (fun p => if p.1 == s then (p.1, p.2 ++ [q]) else p) = m := by
  intro m
  induction m with
  | nil => intro _; rfl
  | cons p rest ih =>
    intro h
    have hb : (p.1 == s) = false :=
      beq_eq_false_iff_ne.mpr (h p (List.mem_cons_self p rest))
    simp only [List.map_cons, hb, Bool.false_eq_true, if_false]
    rw [ih (fun x hx => h x (List.mem_cons_of_mem p hx))]

theorem sumSizes_cons (p : String × List QueryRecord) (m : List (String × List QueryRecord)) :
    sumSizes (p :: m) = p.2.length + sumSizes m := by
  simp [sumSizes]

theorem sumSizes_append (m1 m2 : List (String × List QueryRecord)) :
    sumSizes (m1 ++ m2) = sumSizes m1 + sumSizes m2 := by
  simp [sumSizes]

theorem sumSizes_update (s : String) (q : QueryRecord) :
    ∀ m : List (String × List QueryRecord), (m.map Prod.fst).Nodup →
      s ∈ m.map Prod.fst →
      sumSizes (m.map (fun p => if p.1 == s then (p.1, p.2 ++ [q]) else p))
        = sumSizes m + 1 := by
  intro m
  induction m with
  | nil => intro _ h; simp at h
  | cons p rest ih =>
    intro hnodup hmem
    have hnodup' : (rest.map Prod.fst).Nodup := (List.nodup_cons.mp hnodup).2
    by_cases hps : p.1 = s
    · have hb : (p.1 == s) = true := beq_iff_eq.mpr hps
      have hrest : ∀ x ∈ rest, x.1 ≠ s := by
        intro x hx hxs
        have : p.1 ∈ rest.map Prod.fst := by
          rw [hps, ← hxs]
          exact List.mem_map_of_mem Prod.fst hx
        exact (List.nodup_cons.mp hnodup).1 this
      simp only [List.map_cons, hb, if_true]
      rw [map_update_id s q rest hrest, sumSizes_cons, sumSizes_cons,
        List.length_append]
      simp
      omega
    · have hb : (p.1 == s) = false := beq_eq_false_iff_ne.mpr hps
      have hmem' : s ∈ rest.map Prod.fst := by
        rcases List.mem_cons.mp hmem with h | h
        · exact absurd h.symm hps
        · exact h
      simp only [List.map_cons, hb, Bool.false_eq_true, if_false]
      rw [sumSizes_cons, sumSizes_cons, ih hnodup' hmem']
      omega

theorem addToGroup_invariant (digest : String → String)
    (m : List (String × List QueryRecord)) (P : List QueryRecord) (q : QueryRecord)
    (hnodup : (m.map Prod.fst).Nodup)
    (hfilter : ∀ p ∈ m, p.2 = P.filter (fun x => get_query_signature digest x == p.1))
    (hcover : ∀ x ∈ P, get_query_signature digest x ∈ m.map Prod.fst)
    (hne : ∀ p ∈ m, p.2 ≠ [])
    (hsum : sumSizes m = P.length) :
    ((addToGroup m (get_query_signature digest q) q).map Prod.fst).Nodup ∧
    (∀ p ∈ addToGroup m (get_query_signature digest q) q,
      p.2 = (P ++ [q]).filter (fun x => get_query_signature digest x == p.1)) ∧
    (∀ x ∈ P ++ [q],
      get_query_signature digest x ∈ (addToGroup m (get_query_signature digest q) q).map Prod.fst) ∧
    (∀ p ∈ addToGroup m (get_query_signature digest q) q, p.2 ≠ []) ∧
    (sumSizes (addToGroup m (get_query_signature digest q) q) = (P ++ [q]).length) := by
  set s := get_query_signature digest q with hs
  unfold addToGroup
  by_cases hin : (m.any (fun p => p.1 == s) = true)
  · rw [if_pos hin]
    have hsmem : s ∈ m.map Prod.fst := (any_fst_iff_mem s m).mp hin
    refine ⟨?_, ?_, ?_, ?_, ?_⟩
    · rw [map_fst_update]; exact hnodup
    · intro p' hp'
      rcases List.mem_map.mp hp' with ⟨p, hp, hfp⟩
      by_cases hps : p.1 = s
      · have hb : (p.1 == s) = true := beq_iff_eq.mpr hps
        rw [← hfp]
        simp only [hb, if_true]
        rw [List.filter_append, ← hfilter p hp]
        have hq : (get_query_signature digest q == p.1) = true :=
          beq_iff_eq.mpr (hs ▸ hps.symm)
        simp [List.filter_cons, hq]
      · have hb : (p.1 == s) = false := beq_eq_false_iff_ne.mpr hps
        rw [← hfp]
        simp only [hb, Bool.false_eq_true, if_false]
        rw [List.filter_append, ← hfilter p hp]
        have hq : (get_query_signature digest q == p.1) = false :=
          beq_eq_false_iff_ne.mpr (fun hx => hps (hs ▸ hx).symm)
        simp [List.filter_cons, hq]
    · intro x hx
      rw [map_fst_update]
      rcases List.mem_append.mp hx with h | h
      · exact hcover x h
      · rcases List.mem_singleton.mp h with rfl
        exact hsmem
    · intro p' hp'
      rcases List.mem_map.mp hp' with ⟨p, hp, hfp⟩
      by_cases hps : p.1 = s
      · have hb : (p.1 == s) = true := beq_iff_eq.mpr hps
        rw [← hfp]; simp [hb]
      · have hb : (p.1 == s) = false := beq_eq_false_iff_ne.mpr hps
        rw [← hfp]
        simp only [hb, Bool.false_eq_true, if_false]
        exact hne p hp
    · rw [sumSizes_update s q m hnodup hsmem, hsum]
      simp
  · rw [if_neg hin]
    have hsnot : s ∉ m.map Prod.fst := fun hmem =>
      hin ((any_fst_iff_mem s m).mpr hmem)
    refine ⟨?_, ?_, ?_, ?_, ?_⟩
    · rw [List.map_append]
      rw [List.nodup_append]
      refine ⟨hnodup, List.nodup_singleton s, ?_⟩
      intro a ha hb
      rcases List.mem_singleton.mp hb with rfl
      exact hsnot ha
    · intro p' hp'
      rcases List.mem_append.mp hp' with hp | hp
      · have hpne : p'.1 ≠ s := fun hx => hsnot (hx ▸ List.mem_map_of_mem Prod.fst hp)
        have hq : (get_query_signature digest q == p'.1) = false :=
          beq_eq_false_iff_ne.mpr (fun hx => hpne (hs ▸ hx).symm)
        rw [List.filter_append, ← hfilter p' hp]
        simp [List.filter_cons, hq]
      · rcases List.mem_singleton.mp hp with rfl
        simp only
        have hP : P.filter (fun x => get_query_signature digest x == s) = [] := by
          rw [List.filter_eq_nil_iff]
          intro a ha hcontra
          have : get_query_signature digest a = s := beq_iff_eq.mp hcontra
          exact hsnot (this ▸ hcover a ha)
        rw [List.filter_append, hP]
        have hq : (get_query_signature digest q == s) = true := beq_iff_eq.mpr hs.symm
        simp [List.filter_cons, hq]
    · intro x hx
      rw [List.map_append]
      rcases List.mem_append.mp hx with h | h
      · exact List.mem_append_left _ (hcover x h)
      · rcases List.mem_singleton.mp h with rfl
        exact List.mem_append_right _ (by simp)
    · intro p' hp'
      rcases List.mem_append.mp hp' with hp | hp
      · exact hne p' hp
      · rcases List.mem_singleton.mp hp with rfl
        simp
    · rw [sumSizes_append, hsum]
      simp [sumSizes]

theorem group_fold_invariant (digest : String → String) :
    ∀ (qs : List QueryRecord) (m : List (String × List QueryRecord)) (P : List QueryRecord),
      (m.map Prod.fst).Nodup →
      (∀ p ∈ m, p.2 = P.filter (fun x => get_query_signature digest x == p.1)) →
      (∀ x ∈ P, get_query_signature digest x ∈ m.map Prod.fst) →
      (∀ p ∈ m, p.2 ≠ []) →
      sumSizes m = P.length →
      ((qs.foldl (fun acc x => addToGroup acc (get_query_signature digest x) x) m).map
          Prod.fst).Nodup ∧
      (∀ p ∈ qs.foldl (fun acc x => addToGroup acc (get_query_signature digest x) x) m,
        p.2 = (P ++ qs).filter (fun x => get_query_signature digest x == p.1)) ∧
      (∀ x ∈ P ++ qs, get_query_signature digest x
        ∈ (qs.foldl (fun acc x => addToGroup acc (get_query_signature digest x) x) m).map
            Prod.fst) ∧
      (∀ p ∈ qs.foldl (fun acc x => addToGroup acc (get_query_signature digest x) x) m,
        p.2 ≠ []) ∧
      sumSizes (qs.foldl (fun acc x => addToGroup acc (get_query_signature digest x) x) m)
        = (P ++ qs).length := by
  intro qs
  induction qs with
  | nil =>
    intro m P h1 h2 h3 h4 h5
    rw [List.append_nil]
    exact ⟨h1, h2, h3, h4, h5⟩
  | cons q rest ih =>
    intro m P h1 h2 h3 h4 h5
    have step := addToGroup_invariant digest m P q h1 h2 h3 h4 h5
    have hmain := ih (addToGroup m (get_query_signature digest q) q) (P ++ [q])
      step.1 step.2.1 step.2.2.1 step.2.2.2.1 step.2.2.2.2
    rw [List.append_assoc, List.singleton_append] at hmain
    simp only [List.foldl_cons]
    exact hmain

/-- C2: `group_similar_queries` partitions its input: the group sizes sum to
the input length, the signature keys are pairwise distinct, and each group is
non-empty and consists of exactly the input records bearing its signature, in
input order (it literally equals the input filtered by that signature). -/
theorem group_similar_queries_partition (digest : String → String)
    (queries : List QueryRecord) :
    sumSizes (group_similar_queries digest queries) = queries.length ∧
    ((group_similar_queries digest queries).map Prod.fst).Nodup ∧
    ∀ p ∈ group_similar_queries digest queries,
      p.2 = queries.filter (fun x => get_query_signature digest x == p.1) ∧
      p.2 ≠ [] ∧
      ∀ x ∈ p.2, get_query_signature digest x = p.1 := by
  have h := group_fold_invariant digest queries [] []
    (by simp) (by simp) (by simp) (by simp) rfl
  rw [List.nil_append] at h
  refine ⟨h.2.2.2.2, h.1, ?_⟩
  intro p hp
  refine ⟨h.2.1 p hp, h.2.2.2.1 p hp, ?_⟩
  intro x hx
  have := h.2.1 p hp
  rw [this] at hx
  exact beq_iff_eq.mp (List.mem_filter.mp hx).2

/-- C2 witness: grouping three concrete records — two sharing a signature,
one distinct — yields groups of total size three, with `qA`'s group holding
exactly `qA` and `qB` in input order. -/
theorem group_similar_queries_partition_witness :
    sumSizes (group_similar_queries id [qA, qB, qC]) = 3 ∧
    (get_query_signature id qA, [qA, qB]) ∈ group_similar_queries id [qA, qB, qC] ∧
    [qA, qB] = [qA, qB, qC].filter
      (fun x => get_query_signature id x == get_query_signature id qA) ∧
    get_query_signature id qB = get_query_signature id qA := by
  have h := group_similar_queries_partition id [qA, qB, qC]
  have hmem : (get_query_signature id qA, [qA, qB]) ∈ group_similar_queries id [qA, qB, qC] := by
    rw [show group_similar_queries id [qA, qB, qC]
        = [(get_query_signature id qA, [qA, qB]), (get_query_signature id qC, [qC])] from rfl]
    exact List.mem_cons_self _ _
  have hp := h.2.2 _ hmem
  exact ⟨h.1, hmem, hp.1,
    hp.2.2 qB (List.mem_cons_of_mem _ (List.mem_cons_self _ _))⟩

/-! ### C3 -/

theorem pyMaxBy_le (f : QueryRecord → Int) :
    ∀ (l : List QueryRecord) (cur : QueryRecord), ∀ x ∈ cur :: l, f x ≤ f (pyMaxBy f cur l) := by
  intro l
  induction l with
  | nil =>
    intro cur x hx
    rcases List.mem_singleton.mp hx with rfl
    exact le_refl _
  | cons y ys ih =>
    intro cur x hx
    show f x ≤ f (pyMaxBy f (if f y > f cur then y else cur) ys)
    have hcur : f cur ≤ f (if f y > f cur then y else cur) := by
      split_ifs with hc
      · exact le_of_lt hc
      · exact le_refl _
    have hy : f y ≤ f (if f y > f cur then y else cur) := by
      split_ifs with hc
      · exact le_refl _
      · exact le_of_not_lt hc
    have hhead := ih (if f y > f cur then y else cur) _
      (List.mem_cons_self _ _)
    rcases List.mem_cons.mp hx with rfl | hx'
    · exact le_trans hcur hhead
    · rcases List.mem_cons.mp hx' with rfl | hx''
      · exact le_trans hy hhead
      · exact ih _ x (List.mem_cons_of_mem _ hx'')

theorem pyMaxBy_cons (f : QueryRecord → Int) (cur y : QueryRecord) (ys : List QueryRecord) :
    pyMaxBy f cur (y :: ys) = pyMaxBy f (if f y > f cur then y else cur) ys := rfl

theorem pyMaxBy_decomp (f : QueryRecord → Int) :
    ∀ (l : List QueryRecord) (cur : QueryRecord),
      ∃ pre post, cur :: l = pre ++ pyMaxBy f cur l :: post ∧
        ∀ x ∈ pre, f x < f (pyMaxBy f cur l) := by
  intro l
  induction l with
  | nil =>
    intro cur
    exact ⟨[], [], rfl, by intro x hx; simp at hx⟩
  | cons y ys ih =>
    intro cur
    rw [pyMaxBy_cons]
    by_cases hc : f y > f cur
    · rw [if_pos hc]
      obtain ⟨pre', post', heq, hlt⟩ := ih y
      refine ⟨cur :: pre', post', ?_, ?_⟩
      · rw [List.cons_append, ← heq]
      · intro x hx
        rcases List.mem_cons.mp hx with rfl | hx'
        · have hy : f y ≤ f (pyMaxBy f y ys) := pyMaxBy_le f ys y y (List.mem_cons_self _ _)
          exact lt_of_lt_of_le hc hy
        · exact hlt x hx'
    · rw [if_neg hc]
      obtain ⟨pre', post', heq, hlt⟩ := ih cur
      cases pre' with
      | nil =>
        rw [List.nil_append] at heq
        injection heq with hhead htail
        refine ⟨[], y :: ys, ?_, by intro x hx; simp at hx⟩
        rw [List.nil_append, ← hhead]
      | cons p0 pre'' =>
        rw [List.cons_append] at heq
        injection heq with hhead htail
        refine ⟨cur :: y :: pre'', post', ?_, ?_⟩
        · rw [List.cons_append, List.cons_append, ← htail]
        · intro x hx
          have hcurlt : f cur < f (pyMaxBy f cur ys) := by
            have := hlt p0 (List.mem_cons_self _ _)
            rwa [← hhead] at this
          rcases List.mem_cons.mp hx with rfl | hx'
          · exact hcurlt
          · rcases List.mem_cons.mp hx' with rfl | hx''
            · exact lt_of_le_of_lt (le_of_not_lt hc) hcurlt
            · exact hlt x (List.mem_cons_of_mem _ hx'')

theorem pyMinInt_mem : ∀ (l : List Int) (cur : Int), pyMinInt cur l ∈ cur :: l := by
  intro l
  induction l with
  | nil => intro cur; exact List.mem_singleton.mpr rfl
  | cons y ys ih =>
    intro cur
    show pyMinInt (if y < cur then y else cur) ys ∈ cur :: y :: ys
    have := ih (if y < cur then y else cur)
    rcases List.mem_cons.mp this with h | h
    · rw [h]
      split_ifs
      · exact List.mem_cons_of_mem _ (List.mem_cons_self _ _)
      · exact List.mem_cons_self _ _
    · exact List.mem_cons_of_mem _ (List.mem_cons_of_mem _ h)

theorem pyMinInt_le : ∀ (l : List Int) (cur : Int), ∀ x ∈ cur :: l, pyMinInt cur l ≤ x := by
  intro l
  induction l with
  | nil =>
    intro cur x hx
    rcases List.mem_singleton.mp hx with rfl
    exact le_refl _
  | cons y ys ih =>
    intro cur x hx
    show pyMinInt (if y < cur then y else cur) ys ≤ x
    have hhead := ih (if y < cur then y else cur) _ (List.mem_cons_self _ _)
    have hcur : (if y < cur then y else cur) ≤ cur := by
      split_ifs with hcy
      · exact le_of_lt hcy
      · exact le_refl _
    have hy : (if y < cur then y else cur) ≤ y := by
      split_ifs with hcy
      · exact le_refl _
      · exact le_of_not_lt hcy
    rcases List.mem_cons.mp hx with rfl | hx'
    · exact le_trans hhead hcur
    · rcases List.mem_cons.mp hx' with rfl | hx''
      · exact le_trans hhead hy
      · exact ih _ x (List.mem_cons_of_mem _ hx'')

theorem pyMaxInt_mem : ∀ (l : List Int) (cur : Int), pyMaxInt cur l ∈ cur :: l := by
  intro l
  induction l with
  | nil => intro cur; exact List.mem_singleton.mpr rfl
  | cons y ys ih =>
    intro cur
    show pyMaxInt (if y > cur then y else cur) ys ∈ cur :: y :: ys
    have := ih (if y > cur then y else cur)
    rcases List.mem_cons.mp this with h | h
    · rw [h]
      split_ifs
      · exact List.mem_cons_of_mem _ (List.mem_cons_self _ _)
      · exact List.mem_cons_self _ _
    · exact List.mem_cons_of_mem _ (List.mem_cons_of_mem _ h)

theorem pyMaxInt_ge : ∀ (l : List Int) (cur : Int), ∀ x ∈ cur :: l, x ≤ pyMaxInt cur l := by
  intro l
  induction l with
  | nil =>
    intro cur x hx
    rcases List.mem_singleton.mp hx with rfl
    exact le_refl _
  | cons y ys ih =>
    intro cur x hx
    show x ≤ pyMaxInt (if y > cur then y else cur) ys
    have hhead := ih (if y > cur then y else cur) _ (List.mem_cons_self _ _)
    have hcur : cur ≤ (if y > cur then y else cur) := by
      split_ifs with hcy
      · exact le_of_lt hcy
      · exact le_refl _
    have hy : y ≤ (if y > cur then y else cur) := by
      split_ifs with hcy
      · exact le_refl _
      · exact le_of_not_lt hcy
    rcases List.mem_cons.mp hx with rfl | hx'
    · exact le_trans hcur hhead
    · rcases List.mem_cons.mp hx' with rfl | hx''
      · exact le_trans hy hhead
      · exact ih _ x (List.mem_cons_of_mem _ hx'')

/-- C3: on a non-empty group, `select_representative_query` returns the
record of maximal duration (duration ties broken by first occurrence in the
group's order: every record strictly before the chosen one is strictly
faster), annotated with group statistics — count equal to the group size,
`min`/`max` equal to the least / greatest duration over the group, and the
average equal to the exact arithmetic mean of the durations. -/
theorem select_representative_spec (digest : String → String) (g : List QueryRecord)
    (h : g ≠ []) :
    ∃ r gi, select_representative_query digest g = some r ∧ r.group_info = some gi ∧
      gi.total_similar_queries = g.length ∧
      gi.min_duration_ms ∈ g.map (fun x => x.duration_ms) ∧
      (∀ d ∈ g.map (fun x => x.duration_ms), gi.min_duration_ms ≤ d) ∧
      gi.max_duration_ms ∈ g.map (fun x => x.duration_ms) ∧
      (∀ d ∈ g.map (fun x => x.duration_ms), d ≤ gi.max_duration_ms) ∧
      gi.avg_duration_ms
        = (((g.map (fun x => x.duration_ms)).sum : Int) : Rat) / ((g.length : Nat) : Rat) ∧
      r.duration_ms = gi.max_duration_ms ∧
      ∃ pre rep post, g = pre ++ rep :: post ∧ r = { rep with group_info := some gi } ∧
        ∀ x ∈ pre, x.duration_ms < gi.max_duration_ms := by
  cases g with
  | nil => exact absurd rfl h
  | cons q0 rest =>
    set f : QueryRecord → Int := fun x => x.duration_ms with hf
    set rep := pyMaxBy f q0 rest with hrep
    set gi : GroupInfo := {
      total_similar_queries := (q0 :: rest).length,
      min_duration_ms := pyMinInt q0.duration_ms (rest.map (fun q => q.duration_ms)),
      max_duration_ms := pyMaxInt q0.duration_ms (rest.map (fun q => q.duration_ms)),
      avg_duration_ms :=
        ((((q0 :: rest).map (fun q => q.duration_ms)).sum : Int) : Rat)
          / (((q0 :: rest).length : Nat) : Rat),
      query_signatures := ((q0 :: rest).take 3).map (get_query_signature digest) } with hgi
    have hmax_ge : ∀ d ∈ (q0 :: rest).map (fun x => x.duration_ms), d ≤ gi.max_duration_ms := by
      intro d hd
      rw [List.map_cons] at hd
      exact pyMaxInt_ge (rest.map (fun q => q.duration_ms)) q0.duration_ms d hd
    have hrep_mem_le : ∀ x ∈ q0 :: rest, f x ≤ f rep := pyMaxBy_le f rest q0
    have hdur : rep.duration_ms = gi.max_duration_ms := by
      apply le_antisymm
      · obtain ⟨pre, post, heq, _⟩ := pyMaxBy_decomp f rest q0
        have hrepmem : rep ∈ q0 :: rest := by
          rw [heq]
          exact List.mem_append_right _ (List.mem_cons_self _ _)
        exact hmax_ge rep.duration_ms (List.mem_map_of_mem _ hrepmem)
      · have hmaxmem : gi.max_duration_ms ∈ (q0 :: rest).map (fun x => x.duration_ms) :=
          pyMaxInt_mem (rest.map (fun q => q.duration_ms)) q0.duration_ms
        obtain ⟨x, hx, hxd⟩ := List.mem_map.mp hmaxmem
        rw [← hxd]
        exact hrep_mem_le x hx
    refine ⟨{ rep with group_info := some gi }, gi, rfl, rfl, rfl, ?_, ?_, ?_, ?_, rfl, ?_, ?_⟩
    · rw [List.map_cons]
      exact pyMinInt_mem (rest.map (fun q => q.duration_ms)) q0.duration_ms
    · intro d hd
      rw [List.map_cons] at hd
      exact pyMinInt_le (rest.map (fun q => q.duration_ms)) q0.duration_ms d hd
    · rw [List.map_cons]
      exact pyMaxInt_mem (rest.map (fun q => q.duration_ms)) q0.duration_ms
    · exact hmax_ge
    · exact hdur
    · obtain ⟨pre, post, heq, hlt⟩ := pyMaxBy_decomp f rest q0
      refine ⟨pre, rep, post, heq, rfl, ?_⟩
      intro x hx
      rw [← hdur]
      exact hlt x hx

/-- C3 witness: on the concrete group `[qB, qA, qATie]` (durations 30, 50,
50), the representative is `qA` — the first record with the maximal duration
50 — as shown by its duration and timestamp. -/
theorem select_representative_spec_witness :
    ([qB, qA, qATie] : List QueryRecord) ≠ [] ∧
    (∃ r gi, select_representative_query id [qB, qA, qATie] = some r ∧
      r.group_info = some gi) ∧
    (select_representative_query id [qB, qA, qATie]).map (fun r => r.duration_ms)
      = some 50 ∧
    (select_representative_query id [qB, qA, qATie]).map (fun r => r.ts) = some 1000 := by
  refine ⟨List.cons_ne_nil _ _, ?_, rfl, rfl⟩
  obtain ⟨r, gi, h1, h2, _⟩ :=
    select_representative_spec id [qB, qA, qATie] (List.cons_ne_nil _ _)
  exact ⟨r, gi, h1, h2⟩

/-! ### C8 (amended) -/

theorem get_type_ne_mixed (v : PyVal) : get_type v ≠ "mixed" := by
  cases v <;>
    simp [get_type, isinstance_dict, isinstance_list, isinstance_str, isinstance_int,
      isinstance_float, isinstance_bool, is_none, pyTypeName]

theorem lookup_map_update_ne {β : Type} (g : β → β) (k k' : String) (hne : k ≠ k') :
    ∀ s : List (String × β),
      List.lookup k (s.map (fun p => if p.1 == k' then (p.1, g p.2) else p))
        = List.lookup k s := by
  intro s
  induction s with
  | nil => rfl
  | cons p rest ih =>
    obtain ⟨a, b⟩ := p
    by_cases hak : a = k'
    · simp [lookup_cons, hak, hne]
      simpa using ih
    · have hb : (a == k') = false := beq_eq_false_iff_ne.mpr hak
      simp only [List.map_cons, hb, Bool.false_eq_true, if_false]
      rw [lookup_cons, lookup_cons, ih]

theorem lookup_append_singleton_ne {β : Type} (k k' : String) (e : β) (hne : k ≠ k') :
    ∀ s : List (String × β), List.lookup k (s ++ [(k', e)]) = List.lookup k s := by
  intro s
  induction s with
  | nil => simp [lookup_cons, beq_eq_false_iff_ne.mpr hne]
  | cons p rest ih =>
    obtain ⟨a, b⟩ := p
    rw [List.cons_append, lookup_cons, lookup_cons, ih]

theorem lookup_schemaStep_self (s : List (String × String)) (k : String) (v : PyVal) :
    List.lookup k (schemaStep s k v)
      = some (match List.lookup k s with
          | none => get_type v
          | some cur => if cur != get_type v && cur != "mixed" then "mixed" else cur) := by
  unfold schemaStep
  rcases hl : List.lookup k s with _ | cur
  · exact lookup_append_singleton k (get_type v) s hl
  · show List.lookup k (if (cur != get_type v && cur != "mixed") = true
        then s.map (fun p => if p.1 == k then (p.1, "mixed") else p) else s)
      = some (if (cur != get_type v && cur != "mixed") = true then "mixed" else cur)
    by_cases hcond : (cur != get_type v && cur != "mixed") = true
    · rw [if_pos hcond, if_pos hcond]
      rw [lookup_map_update (fun _ => "mixed") k s, hl]
      rfl
    · rw [if_neg hcond, if_neg hcond]
      exact hl

theorem lookup_schemaStep_ne (s : List (String × String)) (k k' : String) (v : PyVal)
    (hne : k ≠ k') :
    List.lookup k (schemaStep s k' v) = List.lookup k s := by
  unfold schemaStep
  rcases hl : List.lookup k' s with _ | cur
  · exact lookup_append_singleton_ne k k' (get_type v) hne s
  · show List.lookup k (if (cur != get_type v && cur != "mixed") = true
        then s.map (fun p => if p.1 == k' then (p.1, "mixed") else p) else s)
      = List.lookup k s
    by_cases hcond : (cur != get_type v && cur != "mixed") = true
    · rw [if_pos hcond]
      exact lookup_map_update_ne (fun _ => "mixed") k k' hne s
    · rw [if_neg hcond]

theorem lookup_foldl_schemaStep (k : String) :
    ∀ (items : List (String × PyVal)) (s : List (String × String)),
      List.lookup k (items.foldl (fun acc kv => schemaStep acc kv.1 kv.2) s)
        = tagFold (List.lookup k s)
            ((items.filter (fun kv => kv.1 == k)).map (fun kv => get_type kv.2)) := by
  intro items
  induction items with
  | nil =>
    intro s
    rw [List.foldl_nil, List.filter_nil, List.map_nil]
    rcases List.lookup k s with _ | c <;> rfl
  | cons kv rest ih =>
    intro s
    obtain ⟨k', v⟩ := kv
    rw [List.foldl_cons]
    by_cases hk : k' = k
    · subst hk
      rw [ih, lookup_schemaStep_self]
      have hfil : ((k', v) :: rest).filter (fun kv => kv.1 == k')
          = (k', v) :: rest.filter (fun kv => kv.1 == k') := by
        simp [List.filter_cons]
      rw [hfil, List.map_cons]
      rcases hl : List.lookup k' s with _ | cur
      · rfl
      · rfl
    · have hb : ((k', v).1 == k) = false := beq_eq_false_iff_ne.mpr hk
      rw [ih, lookup_schemaStep_ne s k k' v (fun h => hk h.symm)]
      rw [List.filter_cons, hb]
      simp only [Bool.false_eq_true, if_false]

theorem foldl_foldl_eq_foldl_flatten {α β : Type} (f : β → α → β) :
    ∀ (L : List (List α)) (s : β),
      L.foldl (fun acc l => l.foldl f acc) s = L.flatten.foldl f s := by
  intro L
  induction L with
  | nil => intro s; rfl
  | cons l L' ih =>
    intro s
    rw [List.foldl_cons, List.flatten_cons, List.foldl_append, ih]

theorem foldSchema_eq_flat (docs : List (List (String × PyVal))) :
    foldSchema docs = docs.flatten.foldl (fun acc kv => schemaStep acc kv.1 kv.2) [] := by
  unfold foldSchema
  exact foldl_foldl_eq_foldl_flatten _ docs []

theorem tagFold_mixed : ∀ (ts : List String), tagFold (some "mixed") ts = some "mixed" := by
  intro ts
  induction ts with
  | nil => rfl
  | cons t ts' ih =>
    have hif : (if ("mixed" != t && "mixed" != "mixed") = true then "mixed" else "mixed")
        = "mixed" := by
      split_ifs <;> rfl
    calc tagFold (some "mixed") (t :: ts')
        = tagFold (some (if ("mixed" != t && "mixed" != "mixed") = true
            then "mixed" else "mixed")) ts' := rfl
      _ = tagFold (some "mixed") ts' := by rw [hif]
      _ = some "mixed" := ih

theorem tagFold_all_eq : ∀ (ts : List String) (c : String), c ≠ "mixed" →
    tagFold (some c) ts ≠ some "mixed" → ∀ t ∈ ts, t = c := by
  intro ts
  induction ts with
  | nil => intro c _ _ t ht; simp at ht
  | cons t ts' ih =>
    intro c hc hnm t' ht'
    by_cases htc : t = c
    · have hcondf : (c != t && c != "mixed") = false := by
        have : (c != t) = false := by
          rw [htc]
          simp
        rw [this]
        rfl
      have hstep : tagFold (some c) (t :: ts') = tagFold (some c) ts' := by
        calc tagFold (some c) (t :: ts')
            = tagFold (some (if (c != t && c != "mixed") = true then "mixed" else c)) ts' :=
              rfl
          _ = tagFold (some c) ts' := by
              rw [hcondf]
              simp only [Bool.false_eq_true, if_false]
      rcases List.mem_cons.mp ht' with rfl | hmem
      · exact htc
      · exact ih c hc (hstep ▸ hnm) t' hmem
    · exfalso
      have h1 : (c != t) = true := bne_iff_ne.mpr (fun h => htc h.symm)
      have h2 : (c != "mixed") = true := bne_iff_ne.mpr hc
      have hcond : (c != t && c != "mixed") = true := by rw [h1, h2]; rfl
      have hmix : tagFold (some c) (t :: ts') = some "mixed" := by
        calc tagFold (some c) (t :: ts')
            = tagFold (some (if (c != t && c != "mixed") = true then "mixed" else c)) ts' :=
              rfl
          _ = tagFold (some "mixed") ts' := by rw [hcond]; simp only [if_true]
          _ = some "mixed" := tagFold_mixed ts'
      exact hnm hmix

theorem tagFold_none_mixed_of_distinct : ∀ (ts : List String),
    (∀ t ∈ ts, t ≠ "mixed") →
    (∃ t1 ∈ ts, ∃ t2 ∈ ts, t1 ≠ t2) →
    tagFold none ts = some "mixed" := by
  intro ts hnm hd
  obtain ⟨t1, ht1, t2, ht2, hne⟩ := hd
  cases ts with
  | nil => simp at ht1
  | cons t ts' =>
    show tagFold (some t) ts' = some "mixed"
    by_contra hcon
    have hall := tagFold_all_eq ts' t (hnm t (List.mem_cons_self _ _)) hcon
    have h1 : t1 = t := by
      rcases List.mem_cons.mp ht1 with rfl | h
      · rfl
      · exact hall t1 h
    have h2 : t2 = t := by
      rcases List.mem_cons.mp ht2 with rfl | h
      · rfl
      · exact hall t2 h
    exact hne (h1.trans h2.symm)

/-- C8 (amended): when a collection sample shows some field with two distinct
inferred type tags (as assigned by `get_type`), the schema computed by
`getSchema` tags that field `"mixed"`; and once a processed prefix has made a
field `"mixed"`, processing any further documents leaves it `"mixed"`. -/
theorem mixed_folding (db : DB) (coll : String) (n : Nat) (now : Int) (c : Cache)
    (col : Collection) (docs : List (List (String × PyVal))) (k : String)
    (hs : List.lookup (schemaCacheKey db coll) c = none)
    (hcol : db.get_collection coll = some col)
    (hsample : col.sample (sampleSizeFor n col.estimated_document_count) = .ok docs)
    (hdistinct : ∃ t1 ∈ observedTags docs k, ∃ t2 ∈ observedTags docs k, t1 ≠ t2) :
    List.lookup k (get_collection_schema db coll n now c).1 = some "mixed" ∧
    ∀ docs2, List.lookup k (foldSchema (docs ++ docs2)) = some "mixed" := by
  have hnm : ∀ t ∈ observedTags docs k, t ≠ "mixed" := by
    intro t ht
    obtain ⟨kv, _, hkv⟩ := List.mem_map.mp ht
    rw [← hkv]
    exact get_type_ne_mixed kv.2
  have hcore : List.lookup k (foldSchema docs) = some "mixed" := by
    rw [foldSchema_eq_flat, lookup_foldl_schemaStep]
    exact tagFold_none_mixed_of_distinct (observedTags docs k) hnm hdistinct
  constructor
  · have hschema : (get_collection_schema db coll n now c).1 = foldSchema docs := by
      simp only [get_collection_schema, hs, hcol, hsample]
    rw [hschema]
    exact hcore
  · intro docs2
    rw [foldSchema_eq_flat, List.flatten_append, List.foldl_append,
      lookup_foldl_schemaStep]
    rw [foldSchema_eq_flat] at hcore
    rw [hcore]
    exact tagFold_mixed _

/-- C8 witness: a sample observing `flag` once as a string and once as an
integer yields the tag `"mixed"` for `flag`, and appending more documents
cannot revert it. -/
theorem mixed_folding_witness :
    List.lookup (schemaCacheKey dbMixed "users") ([] : Cache) = none ∧
    dbMixed.get_collection "users" = some colMixed ∧
    colMixed.sample (sampleSizeFor 100 colMixed.estimated_document_count) = .ok docsMixed ∧
    observedTags docsMixed "flag" = ["string", "int"] ∧
    (get_collection_schema dbMixed "users" 100 0 []).1 = [("flag", "mixed")] ∧
    (List.lookup "flag" (get_collection_schema dbMixed "users" 100 0 []).1 = some "mixed" ∧
     ∀ docs2, List.lookup "flag" (foldSchema (docsMixed ++ docs2)) = some "mixed") :=
  ⟨rfl, rfl, rfl, rfl, rfl,
    mixed_folding dbMixed "users" 100 0 [] colMixed docsMixed "flag" rfl rfl rfl
      ⟨"string", by decide, "int", by decide, by decide⟩⟩

end MQO
